import Mathlib

/-!
# Histogram-equalisation host program (`Tutorial 2/Tutorial 2.cpp`)

A shallow embedding of the host side of the pipeline: the derived sizes, the
effective run mode, the kernels that are created and their argument bindings,
and the ordered list of commands pushed to the OpenCL command queue.  The
device kernels (`kernels/my_kernels.cl`) are not part of the sources at hand;
the scans they implement are modelled separately, from the specification.
-/

namespace Tutorial2

/-! ## Data model -/

/-- Modulus of `size_t` arithmetic (64-bit build). -/
def SIZE_MOD : Nat := 2 ^ 64

/-- Bytes of `standard` (`typedef unsigned int standard`). -/
def sizeof_standard : Nat := 4

/-- An image as held by `CImg<unsigned short>`: four dimensions and the raw
sample buffer. -/
structure CImg where
  width : Nat
  height : Nat
  depth : Nat
  spectrum : Nat
  data : List Nat
deriving DecidableEq, Repr

/-- `CImg::size()`: the number of samples, `width * height * depth * spectrum`. -/
def CImg.size (img : CImg) : Nat :=
  img.width * img.height * img.depth * img.spectrum

/-- `CImg::max()`: the largest sample of the buffer. -/
def CImg.max (img : CImg) : Nat :=
  img.data.foldl Nat.max 0

/-- Type invariant of a loaded `CImg<unsigned short>`: the buffer holds `size()`
samples and every sample is an `unsigned short`. -/
def CImg.WF (img : CImg) : Prop :=
  img.data.length = img.size ∧ ∀ s ∈ img.data, s < 65536

/-- Device buffers created in part 5 of `main`. -/
inductive Buffer where
  | buffer_input_image
  | buffer_H
  | buffer_CH
  | buffer_BS
  | buffer_BS_scanned
  | buffer_LUT
  | buffer_output_image
deriving DecidableEq, Repr

/-- Names of the device kernels the host program creates. -/
inductive KernelName where
  | get_hist_8LC
  | get_hist_8
  | get_hist_16
  | get_chist
  | get_chist_HS
  | get_B_S
  | get_scanned_BS_1
  | get_scanned_BS_2
  | get_complete_chist
  | get_LUT
  | get_Output8
  | get_Output16
deriving DecidableEq, Repr

/-- A value bound with `setArg`: a device buffer, a `cl::Local` scratch area of a
given byte size, an `int`, or a `standard` (`unsigned int`). -/
inductive Arg where
  | buffer (b : Buffer)
  | localMem (bytes : Nat)
  | int (v : Int)
  | uint (v : Nat)
deriving DecidableEq, Repr

/-- A `cl::Kernel` handle: `name = none` is the default-constructed (null)
handle; `args` lists the `setArg` calls in the order the source makes them. -/
structure Kernel where
  name : Option KernelName
  args : List (Nat × Arg)
deriving DecidableEq, Repr

/-- A command pushed to the queue.  For `ndrange`, `localSize = none` is
`cl::NullRange`; `fill b bytes` is `enqueueFillBuffer(b, 0, 0, bytes)`, zeroes
written from offset 0 over `bytes` bytes. -/
inductive Command where
  | write (b : Buffer) (bytes : Nat)
  | fill (b : Buffer) (bytes : Nat)
  | ndrange (k : Kernel) (globalSize : Nat) (localSize : Option Nat)
  | read (b : Buffer) (bytes : Nat)
deriving DecidableEq, Repr

open Buffer

/-! ## Derived quantities (parts 2 and 4 of `main`) -/

/-- Conversion of a non-negative value to a 32-bit `int`. -/
def toInt32 (n : Nat) : Int :=
  if n % 2 ^ 32 < 2 ^ 31 then ((n % 2 ^ 32 : Nat) : Int) else ((n % 2 ^ 32 : Nat) : Int) - 2 ^ 32

/-- `size_t input_image_elements = input_image.size()`. -/
def input_image_elements (img : CImg) : Nat := img.size

/-- `int bin_count = input_image.max() <= 255 ? 256 : 65536`. -/
def bin_count (img : CImg) : Nat :=
  if img.max ≤ 255 then 256 else 65536

/-- Bytes per sample of the host buffer that is uploaded: `sizeof(unsigned char)`
for the 8-bit case, `sizeof(unsigned short)` otherwise. -/
def sample_bytes (img : CImg) : Nat :=
  if bin_count img = 256 then 1 else 2

/-- `input_image_size`: size in bytes of the uploaded sample buffer. -/
def input_image_size (img : CImg) : Nat :=
  (input_image_elements img * sample_bytes img) % SIZE_MOD

/-- The samples that are uploaded: `input_image_8` (the file loaded again as
`unsigned char`) when `bin_count == 256`, the `unsigned short` data otherwise. -/
def uploaded_samples (img : CImg) : List Nat :=
  if bin_count img = 256 then img.data.map (fun s => s % 256)
  else img.data.map (fun s => s % 65536)

/-- `size_t local_elements_8 = 256`. -/
def local_elements_8 : Nat := 256

/-- `size_t local_size_8 = local_elements_8 * sizeof(standard)`. -/
def local_size_8 : Nat := local_elements_8 * sizeof_standard

/-- The padding idiom used twice in `main`:
`g = n; p = g % w; if (p) g += (w - p);` in `size_t` arithmetic. -/
def pad_global_elements (n w : Nat) : Nat :=
  if n % w ≠ 0 then (n + (w - n % w)) % SIZE_MOD else n

/-- `kernel1_global_elements_8`: the sample count padded to `local_elements_8`. -/
def kernel1_global_elements_8 (elements : Nat) : Nat :=
  pad_global_elements elements local_elements_8

/-- `kernel2_global_elements_16`: the bin count padded to `local_elements_16`. -/
def kernel2_global_elements_16 (H_elements local_elements_16 : Nat) : Nat :=
  pad_global_elements H_elements local_elements_16

/-- `size_t local_size_16 = local_elements_16 * sizeof(standard)`. -/
def local_size_16 (local_elements_16 : Nat) : Nat :=
  (local_elements_16 * sizeof_standard) % SIZE_MOD

/-- `size_t group_count = bin_count == 256 ? 1 : CH_elements / local_elements_16`. -/
def group_count (bins local_elements_16 : Nat) : Nat :=
  if bins = 256 then 1 else bins / local_elements_16

/-- The test `group_count & (group_count - 1)` in `size_t` arithmetic
(`group_count - 1` wraps to `SIZE_MAX` when `group_count` is zero). -/
def not_pow2_test (gc : Nat) : Nat :=
  gc &&& ((gc + SIZE_MOD - 1) % SIZE_MOD)

/-- The reassignment
`mode_id = (mode_id == 1 && bin_count == 65536 && (group_count & (group_count - 1))) ? 0 : mode_id`. -/
def mode_id (requested : Int) (bins local_elements_16 : Nat) : Int :=
  if requested = 1 ∧ bins = 65536 ∧ not_pow2_test (group_count bins local_elements_16) ≠ 0
  then 0 else requested

/-- Byte size of a vector of `n` counters of type `standard`. -/
def vec_size (n : Nat) : Nat := (n * sizeof_standard) % SIZE_MOD

/-! ## Kernel creation and argument binding (part 5.2 of `main`)

Every function takes the mode id *after* the reassignment above. -/

/-- The histogram kernel `kernel1` with every `setArg` made on it. -/
def kernel1 (mode : Int) (bins elements : Nat) : Kernel :=
  if mode = 0 ∨ mode = 1 then
    if bins = 256 then
      { name := some KernelName.get_hist_8LC
        args := [(2, Arg.localMem local_size_8), (3, Arg.uint (elements % 2 ^ 32)),
                 (0, Arg.buffer buffer_input_image), (1, Arg.buffer buffer_H)] }
    else
      { name := some KernelName.get_hist_16
        args := [(0, Arg.buffer buffer_input_image), (1, Arg.buffer buffer_H)] }
  else
    if bins = 256 then
      { name := some KernelName.get_hist_8
        args := [(0, Arg.buffer buffer_input_image), (1, Arg.buffer buffer_H)] }
    else
      { name := some KernelName.get_hist_16
        args := [(0, Arg.buffer buffer_input_image), (1, Arg.buffer buffer_H)] }

/-- The scan kernel `kernel2` with every `setArg` made on it. -/
def kernel2 (mode : Int) (bins local_elements_16 : Nat) : Kernel :=
  if mode = 0 ∨ mode = 1 then
    if bins = 256 then
      { name := some KernelName.get_chist_HS
        args := [(2, Arg.localMem local_size_8), (3, Arg.localMem local_size_8),
                 (0, Arg.buffer buffer_H), (1, Arg.buffer buffer_CH)] }
    else
      { name := some KernelName.get_chist_HS
        args := [(2, Arg.localMem (local_size_16 local_elements_16)),
                 (3, Arg.localMem (local_size_16 local_elements_16)),
                 (0, Arg.buffer buffer_H), (1, Arg.buffer buffer_CH)] }
  else
    { name := some KernelName.get_chist
      args := [(2, Arg.int (Int.ofNat bins)), (0, Arg.buffer buffer_H), (1, Arg.buffer buffer_CH)] }

/-- The helper `kernel2_helper1` (block-sum extraction); a null handle outside
the optimised 16-bit branch. -/
def kernel2_helper1 (mode : Int) (bins local_elements_16 : Nat) : Kernel :=
  if mode = 0 ∨ mode = 1 then
    if bins = 256 then { name := none, args := [] }
    else
      { name := some KernelName.get_B_S
        args := [(0, Arg.buffer buffer_CH), (1, Arg.buffer buffer_BS),
                 (2, Arg.int (toInt32 local_elements_16))] }
  else { name := none, args := [] }

/-- The helper `kernel2_helper2` (block-sum scan); a null handle outside the
optimised 16-bit branch. -/
def kernel2_helper2 (mode : Int) (bins : Nat) : Kernel :=
  if mode = 0 ∨ mode = 1 then
    if bins = 256 then { name := none, args := [] }
    else if mode = 0 ∨ mode = 2 then
      { name := some KernelName.get_scanned_BS_1
        args := [(1, Arg.buffer buffer_BS_scanned), (0, Arg.buffer buffer_BS)] }
    else
      { name := some KernelName.get_scanned_BS_2
        args := [(0, Arg.buffer buffer_BS)] }
  else { name := none, args := [] }

/-- The helper `kernel2_helper3` (complete cumulative histogram); a null handle
outside the optimised 16-bit branch. -/
def kernel2_helper3 (mode : Int) (bins : Nat) : Kernel :=
  if mode = 0 ∨ mode = 1 then
    if bins = 256 then { name := none, args := [] }
    else if mode = 0 ∨ mode = 2 then
      { name := some KernelName.get_complete_chist
        args := [(0, Arg.buffer buffer_BS_scanned), (1, Arg.buffer buffer_CH)] }
    else
      { name := some KernelName.get_complete_chist
        args := [(0, Arg.buffer buffer_BS), (1, Arg.buffer buffer_CH)] }
  else { name := none, args := [] }

/-- The value bound to argument 3 of `get_LUT`:
`input_image_width * input_image_height`, an `int` product (wrapping to 32 bits
on overflow). -/
def lut_total_arg (img : CImg) : Int :=
  toInt32 (img.width * img.height)

/-- The lookup-table kernel `kernel3`. -/
def kernel3 (img : CImg) : Kernel :=
  { name := some KernelName.get_LUT
    args := [(0, Arg.buffer buffer_CH), (1, Arg.buffer buffer_LUT),
             (2, Arg.int (Int.ofNat (bin_count img))), (3, Arg.int (lut_total_arg img))] }

/-- The remap kernel `kernel4`. -/
def kernel4 (bins : Nat) : Kernel :=
  { name := some (if bins = 256 then KernelName.get_Output8 else KernelName.get_Output16)
    args := [(0, Arg.buffer buffer_input_image), (1, Arg.buffer buffer_LUT),
             (2, Arg.buffer buffer_output_image)] }

/-! ## The command queue (parts 5.1 and 5.2 of `main`) -/

/-- Part 5.1: upload of the image and zero-fill of the device arrays. -/
def upload_commands (img : CImg) (mode : Int) (local_elements_16 : Nat) : List Command :=
  [Command.write buffer_input_image (input_image_size img),
   Command.fill buffer_H (vec_size (bin_count img)),
   Command.fill buffer_CH (vec_size (bin_count img)),
   Command.fill buffer_LUT (vec_size (bin_count img))]
  ++ (if bin_count img = 65536 then
        [Command.fill buffer_BS (vec_size (group_count (bin_count img) local_elements_16))]
        ++ (if mode = 0 then
              [Command.fill buffer_BS_scanned
                 (vec_size (group_count (bin_count img) local_elements_16))]
            else [])
      else [])

/-- The dispatch of `kernel1`. -/
def kernel1_dispatch (mode : Int) (bins elements : Nat) : Command :=
  if (mode = 0 ∨ mode = 1) ∧ bins = 256 then
    Command.ndrange (kernel1 mode bins elements) (kernel1_global_elements_8 elements)
      (some local_elements_8)
  else
    Command.ndrange (kernel1 mode bins elements) elements none

/-- The dispatch of `kernel2_helper2`. -/
def kernel2_helper2_dispatch (mode : Int) (bins local_elements_16 : Nat) : Command :=
  if mode = 0 then
    Command.ndrange (kernel2_helper2 mode bins) (group_count bins local_elements_16) none
  else
    Command.ndrange (kernel2_helper2 mode bins) (group_count bins local_elements_16)
      (some (group_count bins local_elements_16))

/-- The dispatches of the scan stage: `kernel2` and, on the segmented path, the
three helpers. -/
def scan_dispatches (mode : Int) (bins local_elements_16 : Nat) : List Command :=
  if (mode = 0 ∨ mode = 1) ∧ bins = 65536 then
    [Command.ndrange (kernel2 mode bins local_elements_16)
       (kernel2_global_elements_16 bins local_elements_16) (some local_elements_16),
     Command.ndrange (kernel2_helper1 mode bins local_elements_16)
       (group_count bins local_elements_16) none,
     kernel2_helper2_dispatch mode bins local_elements_16,
     Command.ndrange (kernel2_helper3 mode bins)
       (kernel2_global_elements_16 bins local_elements_16) (some local_elements_16)]
  else if (mode = 0 ∨ mode = 1) ∧ bins = 256 then
    [Command.ndrange (kernel2 mode bins local_elements_16) bins (some local_elements_8)]
  else
    [Command.ndrange (kernel2 mode bins local_elements_16) bins none]

/-- Every `enqueueNDRangeKernel` of `main`, in source order. -/
def kernel_dispatches (img : CImg) (mode : Int) (local_elements_16 : Nat) : List Command :=
  [kernel1_dispatch mode (bin_count img) (input_image_elements img)]
  ++ scan_dispatches mode (bin_count img) local_elements_16
  ++ [Command.ndrange (kernel3 img) (bin_count img) none,
      Command.ndrange (kernel4 (bin_count img)) (input_image_elements img) none]

/-- Byte size with which each device buffer is created (part 5 of `main`). -/
def buffer_bytes (img : CImg) (local_elements_16 : Nat) : Buffer → Nat
  | buffer_input_image => input_image_size img
  | buffer_H => vec_size (bin_count img)
  | buffer_CH => vec_size (bin_count img)
  | buffer_BS => vec_size (group_count (bin_count img) local_elements_16)
  | buffer_BS_scanned => vec_size (group_count (bin_count img) local_elements_16)
  | buffer_LUT => vec_size (bin_count img)
  | buffer_output_image => input_image_size img

/-- Length of the host vector the remapped samples are read into
(`output_buffer_8` or `output_buffer_16`). -/
def output_buffer_elements (img : CImg) : Nat := input_image_elements img

/-- Bytes per sample of that host vector: `sizeof(unsigned char)` when
`bin_count == 256`, `sizeof(unsigned short)` otherwise. -/
def output_sample_bytes (img : CImg) : Nat :=
  if bin_count img = 256 then 1 else 2

/-- Bytes read back from `buffer_output_image`:
`output_buffer.size() * sizeof(sample)`. -/
def output_read_bytes (img : CImg) : Nat :=
  (output_buffer_elements img * output_sample_bytes img) % SIZE_MOD

/-- Every `enqueueReadBuffer` of `main`, in source order. -/
def readback_commands (img : CImg) (mode : Int) (local_elements_16 : Nat) : List Command :=
  [Command.read buffer_H (vec_size (bin_count img)),
   Command.read buffer_CH (vec_size (bin_count img)),
   Command.read buffer_LUT (vec_size (bin_count img))]
  ++ (if (mode = 0 ∨ mode = 1) ∧ bin_count img = 65536 then
        [Command.read buffer_BS (vec_size (group_count (bin_count img) local_elements_16))]
        ++ (if mode = 0 then
              [Command.read buffer_BS_scanned
                 (vec_size (group_count (bin_count img) local_elements_16))]
            else [])
      else [])
  ++ [Command.read buffer_output_image (output_read_bytes img)]

/-- The commands `main` pushes to the queue for an image, a requested mode id
(`-m`) and the work-group size the device reports for `get_chist_HS`.  A
work-group size of zero makes `H_elements % local_elements_16` a division by
zero, so there is no result. -/
def main_queue (img : CImg) (requested : Int) (local_elements_16 : Nat) :
    Option (List Command) :=
  if local_elements_16 = 0 then none
  else
    some (upload_commands img (mode_id requested (bin_count img) local_elements_16)
            local_elements_16
          ++ kernel_dispatches img (mode_id requested (bin_count img) local_elements_16)
            local_elements_16
          ++ readback_commands img (mode_id requested (bin_count img) local_elements_16)
            local_elements_16)

/-! ## The run of `main` with buffer creation -/

/-- How a run of `main` ends: by the division by zero of a zero work-group size,
by the `cl::Error` of a refused buffer, or with its whole queue pushed. -/
inductive RunOutcome where
  | division_by_zero
  | invalid_buffer_size (b : Buffer)
  | completed (q : List Command)
deriving DecidableEq, Repr

/-- The device buffers in the order `main` creates them (lines 182 to 200). -/
def created_buffers : List Buffer :=
  [buffer_input_image, buffer_H, buffer_CH, buffer_BS, buffer_BS_scanned, buffer_LUT,
   buffer_output_image]

/-- The run of `main` with the creation of the device buffers.  The buffers are
created after the sizes are computed and before the first command is pushed and
the first kernel is created.  `clCreateBuffer` refuses a size of zero with
`CL_INVALID_BUFFER_SIZE`, which `cl::Buffer` throws as the `cl::Error` that the
handler at the end of `main` catches: the run ends there with nothing pushed. -/
def main_run (img : CImg) (requested : Int) (local_elements_16 : Nat) : RunOutcome :=
  match main_queue img requested local_elements_16 with
  | none => RunOutcome.division_by_zero
  | some q =>
    match created_buffers.find? (fun b => buffer_bytes img local_elements_16 b = 0) with
    | some b => RunOutcome.invalid_buffer_size b
    | none => RunOutcome.completed q


/-! ## The scans of the device kernels

`kernels/my_kernels.cl` is not among the sources.  The scans are modelled from
the specification (section 4.2 and 4.3): arrays are lists of counters, a kernel
round maps every work-item index to its new value, and a read outside the array
yields 0.  Counters are natural numbers: the specification requires an
accumulator wide enough for the sample count, and every intermediate value of
the scans is a sum of bins, so no counter exceeds the sample count. -/

/-- Modelled from the spec: the "inclusive prefix sum" a CumulativeHistogram must
hold (the kernels are missing from the sources): entry `i` is the sum of the
first `i + 1` bins. -/
def inclusive_sums (H : List Nat) : List Nat :=
  (List.range H.length).map (fun i => (H.take (i + 1)).sum)

/-- Modelled from the spec: the single pass of the serial scan (kernel
`get_chist`, missing from the sources), carrying the running total `acc`. -/
def serial_from (acc : Nat) : List Nat → List Nat
  | [] => []
  | x :: xs => (acc + x) :: serial_from (acc + x) xs

/-- Modelled from the spec: kernel `get_chist` (missing from the sources),
strategy 1, "a single logical pass computes the prefix sum with no parallel
decomposition". -/
def get_chist (H : List Nat) : List Nat := serial_from 0 H

/-- Modelled from the spec: one round of the Hillis-Steele scan (kernel
`get_chist_HS`, missing from the sources): every element whose position inside
its segment of width `w` is at least `stride` adds its predecessor at that
stride. -/
def hs_round (w stride : Nat) (A : List Nat) : List Nat :=
  (List.range A.length).map
    (fun i => if stride ≤ i % w then A.getD i 0 + A.getD (i - stride) 0 else A.getD i 0)

/-- Modelled from the spec: the first `r` rounds of the Hillis-Steele scan
(kernel `get_chist_HS`, missing from the sources), with strides 1, 2, 4, ... -/
def hs_rounds (w : Nat) : Nat → List Nat → List Nat
  | 0, A => A
  | r + 1, A => hs_round w (2 ^ r) (hs_rounds w r A)

/-- Modelled from the spec: kernel `get_chist_HS` (missing from the sources),
strategy 2: every segment of width `w` is scanned independently, an "inclusive
scan within one segment in ceil(log2(segment width)) rounds". -/
def get_chist_HS (w : Nat) (H : List Nat) : List Nat :=
  hs_rounds w (Nat.clog 2 w) H

/-- Modelled from the spec: kernel `get_B_S` (missing from the sources), run over
`groups` work-items: the "block sum = last element of the segment". -/
def get_B_S (w groups : Nat) (CH : List Nat) : List Nat :=
  (List.range groups).map (fun k => CH.getD ((k + 1) * w - 1) 0)

/-- Modelled from the spec: the pass of the serial exclusive scan (kernel
`get_scanned_BS_1`, missing from the sources), carrying the running total. -/
def exclusive_from (acc : Nat) : List Nat → List Nat
  | [] => []
  | x :: xs => acc :: exclusive_from (acc + x) xs

/-- Modelled from the spec: kernel `get_scanned_BS_1` (missing from the sources),
the serial fallback scan of the block sums, giving each block its exclusive
offset. -/
def get_scanned_BS_1 (BS : List Nat) : List Nat := exclusive_from 0 BS

/-- Modelled from the spec: one up-sweep (reduce) round of the Blelloch scan
(kernel `get_scanned_BS_2`, missing from the sources). -/
def up_round (stride : Nat) (A : List Nat) : List Nat :=
  (List.range A.length).map
    (fun i => if (i + 1) % (stride * 2) = 0 then A.getD i 0 + A.getD (i - stride) 0
              else A.getD i 0)

/-- Modelled from the spec: the first `d` up-sweep rounds (kernel
`get_scanned_BS_2`, missing from the sources), with strides 1, 2, 4, ... -/
def up_rounds : Nat → List Nat → List Nat
  | 0, A => A
  | d + 1, A => up_round (2 ^ d) (up_rounds d A)

/-- Modelled from the spec: the step between the two sweeps of the exclusive
Blelloch scan (kernel `get_scanned_BS_2`, missing from the sources): the last
element is set to zero. -/
def clear_last (A : List Nat) : List Nat := A.set (A.length - 1) 0

/-- Modelled from the spec: one down-sweep round of the Blelloch scan (kernel
`get_scanned_BS_2`, missing from the sources): a work-item at the right end of a
block of `2 * stride` elements adds the left half's value to its own and hands
its old value to the element `stride` places to its left. -/
def down_round (stride : Nat) (A : List Nat) : List Nat :=
  (List.range A.length).map
    (fun i =>
      if (i + 1) % (stride * 2) = 0 then A.getD i 0 + A.getD (i - stride) 0
      else if i + stride < A.length ∧ (i + stride + 1) % (stride * 2) = 0 then
        A.getD (i + stride) 0
      else A.getD i 0)

/-- Modelled from the spec: `d` down-sweep rounds (kernel `get_scanned_BS_2`,
missing from the sources), with strides `2 ^ (d - 1)`, ..., 2, 1. -/
def down_rounds : Nat → List Nat → List Nat
  | 0, A => A
  | d + 1, A => down_rounds d (down_round (2 ^ d) A)

/-- Modelled from the spec: kernel `get_scanned_BS_2` (missing from the sources),
strategy 3 on the block sums: "exclusive scan via an up-sweep (reduce) phase
followed by a down-sweep phase", each of log2(length) rounds. -/
def get_scanned_BS_2 (BS : List Nat) : List Nat :=
  down_rounds (Nat.log 2 BS.length) (clear_last (up_rounds (Nat.log 2 BS.length) BS))

/-- Modelled from the spec: kernel `get_complete_chist` (missing from the
sources): the scanned block sums are "broadcast back into each segment via
elementwise addition". -/
def get_complete_chist (w : Nat) (BS_scanned CH : List Nat) : List Nat :=
  (List.range CH.length).map (fun i => CH.getD i 0 + BS_scanned.getD (i / w) 0)

/-- Modelled from the spec: the segmented scan as the host chains it in effective
mode 0 (the kernels are missing from the sources): `get_chist_HS`, `get_B_S` over
`groups` blocks, `get_scanned_BS_1`, `get_complete_chist`. -/
def chist_mode0 (w groups : Nat) (H : List Nat) : List Nat :=
  get_complete_chist w (get_scanned_BS_1 (get_B_S w groups (get_chist_HS w H)))
    (get_chist_HS w H)

/-- Modelled from the spec: the segmented scan as the host chains it in effective
mode 1 (the kernels are missing from the sources): `get_chist_HS`, `get_B_S` over
`groups` blocks, `get_scanned_BS_2`, `get_complete_chist`. -/
def chist_mode1 (w groups : Nat) (H : List Nat) : List Nat :=
  get_complete_chist w (get_scanned_BS_2 (get_B_S w groups (get_chist_HS w H)))
    (get_chist_HS w H)

/-! ## Structure of the queue: stages, reads and writes -/

/-- Whether a command is an `enqueueNDRangeKernel`. -/
def Command.is_dispatch : Command → Bool
  | Command.ndrange _ _ _ => true
  | _ => false

/-- The commands enqueued before the first kernel dispatch. -/
def before_first_dispatch (q : List Command) : List Command :=
  q.takeWhile (fun c => !c.is_dispatch)

/-- The kernels a queue dispatches, in the order of their dispatch. -/
def dispatched_kernels (q : List Command) : List Kernel :=
  q.filterMap (fun c => match c with
    | Command.ndrange k _ _ => some k
    | _ => none)

/-- The device buffers bound to a kernel by `setArg`. -/
def Kernel.bound_buffers (k : Kernel) : List Buffer :=
  k.args.filterMap (fun a => match a.2 with
    | Arg.buffer b => some b
    | _ => none)

/-- The device buffer bound to argument `idx` of a kernel, if any. -/
def Kernel.arg_buffer (k : Kernel) (idx : Nat) : Option Buffer :=
  k.args.findSome? (fun a => if a.1 = idx then
    (match a.2 with
      | Arg.buffer b => some b
      | _ => none) else none)

/-- The stages of the pipeline. -/
inductive Stage where
  | histogram
  | scan
  | block_sums
  | block_sum_scan
  | merge
  | lookup_table
  | remap
deriving DecidableEq, Repr

/-- The stage a kernel implements, as the comments of `main` describe the
kernels it creates. -/
def KernelName.stage : KernelName → Stage
  | KernelName.get_hist_8LC => Stage.histogram
  | KernelName.get_hist_8 => Stage.histogram
  | KernelName.get_hist_16 => Stage.histogram
  | KernelName.get_chist => Stage.scan
  | KernelName.get_chist_HS => Stage.scan
  | KernelName.get_B_S => Stage.block_sums
  | KernelName.get_scanned_BS_1 => Stage.block_sum_scan
  | KernelName.get_scanned_BS_2 => Stage.block_sum_scan
  | KernelName.get_complete_chist => Stage.merge
  | KernelName.get_LUT => Stage.lookup_table
  | KernelName.get_Output8 => Stage.remap
  | KernelName.get_Output16 => Stage.remap

/-- Modelled from the spec: the argument positions a kernel reads (the kernel
signatures of `kernels/my_kernels.cl` are missing from the sources), after the
data flow of section 2 and the components of section 4. -/
def read_args : KernelName → List Nat
  | KernelName.get_hist_8LC => [0]
  | KernelName.get_hist_8 => [0]
  | KernelName.get_hist_16 => [0]
  | KernelName.get_chist => [0]
  | KernelName.get_chist_HS => [0]
  | KernelName.get_B_S => [0]
  | KernelName.get_scanned_BS_1 => [0]
  | KernelName.get_scanned_BS_2 => [0]
  | KernelName.get_complete_chist => [0, 1]
  | KernelName.get_LUT => [0]
  | KernelName.get_Output8 => [0, 1]
  | KernelName.get_Output16 => [0, 1]

/-- Modelled from the spec: the argument positions a kernel writes (the kernel
signatures of `kernels/my_kernels.cl` are missing from the sources); the
Blelloch block-sum scan works in place, and the merge adds the block offsets
into the cumulative histogram it is given. -/
def written_args : KernelName → List Nat
  | KernelName.get_hist_8LC => [1]
  | KernelName.get_hist_8 => [1]
  | KernelName.get_hist_16 => [1]
  | KernelName.get_chist => [1]
  | KernelName.get_chist_HS => [1]
  | KernelName.get_B_S => [1]
  | KernelName.get_scanned_BS_1 => [1]
  | KernelName.get_scanned_BS_2 => [0]
  | KernelName.get_complete_chist => [1]
  | KernelName.get_LUT => [1]
  | KernelName.get_Output8 => [2]
  | KernelName.get_Output16 => [2]

/-- The device buffers a dispatched kernel reads. -/
def Kernel.reads (k : Kernel) : List Buffer :=
  match k.name with
  | none => []
  | some n => (read_args n).filterMap k.arg_buffer

/-- The device buffers a dispatched kernel writes. -/
def Kernel.writes (k : Kernel) : List Buffer :=
  match k.name with
  | none => []
  | some n => (written_args n).filterMap k.arg_buffer

/-- The device buffers a dispatched kernel produces: those it writes without
reading them.  A buffer that is both read and written is updated in place. -/
def Kernel.produces (k : Kernel) : List Buffer :=
  k.writes.filter (fun b => decide (b ∉ k.reads))


/-! ## Auxiliary facts -/

/-- For a positive number, `n & (n - 1)` vanishes exactly on the powers of two. -/
theorem land_pred_eq_zero_iff (n : Nat) (hn : 0 < n) :
    n &&& (n - 1) = 0 ↔ ∃ k, n = 2 ^ k := by
  induction n using Nat.strong_induction_on with
  | _ n ih =>
    rcases Nat.lt_or_ge n 2 with h1 | h2
    · have h : n = 1 := by omega
      subst h
      exact ⟨fun _ => ⟨0, rfl⟩, fun _ => by decide⟩
    · have hsplit : ∀ x : Nat, x = 0 ↔ x / 2 = 0 ∧ x % 2 = 0 := fun x => by omega
      rw [hsplit (n &&& (n - 1)), Nat.and_div_two]
      rcases Nat.mod_two_eq_zero_or_one n with he | ho
      · have hm : (n &&& (n - 1)) % 2 = 0 := by
          rcases Nat.mod_two_eq_zero_or_one (n &&& (n - 1)) with h | h
          · exact h
          · rw [Nat.and_mod_two_eq_one] at h; omega
        have hd : (n - 1) / 2 = n / 2 - 1 := by omega
        rw [hd]
        have hrec := ih (n / 2) (by omega) (by omega)
        constructor
        · rintro ⟨h, _⟩
          obtain ⟨k, hk⟩ := hrec.mp h
          exact ⟨k + 1, by rw [pow_succ]; omega⟩
        · rintro ⟨k, hk⟩
          refine ⟨hrec.mpr ?_, hm⟩
          cases k with
          | zero => simp at hk; omega
          | succ k => exact ⟨k, by rw [pow_succ] at hk; omega⟩
      · have hd : (n - 1) / 2 = n / 2 := by omega
        rw [hd, Nat.and_self]
        constructor
        · rintro ⟨h, _⟩; omega
        · rintro ⟨k, hk⟩
          cases k with
          | zero => simp at hk; omega
          | succ k => rw [pow_succ] at hk; omega

/-- On a block count that fits `size_t` and is not zero, the bit test of `main`
is the power-of-two test. -/
theorem not_pow2_test_eq_zero_iff (gc : Nat) (h0 : 0 < gc) (h1 : gc < SIZE_MOD) :
    not_pow2_test gc = 0 ↔ ∃ k, gc = 2 ^ k := by
  have h : (gc + SIZE_MOD - 1) % SIZE_MOD = gc - 1 := by
    have : gc + SIZE_MOD - 1 = (gc - 1) + SIZE_MOD := by omega
    rw [this, Nat.add_mod_right, Nat.mod_eq_of_lt (by omega)]
  unfold not_pow2_test
  rw [h]
  exact land_pred_eq_zero_iff gc h0

/-- The block count of a 16-bit image for a segment width between 1 and 65536 is
between 1 and 65536. -/
theorem group_count_16_bounds (w : Nat) (h1 : 1 ≤ w) (h2 : w ≤ 65536) :
    1 ≤ group_count 65536 w ∧ group_count 65536 w ≤ 65536 := by
  have hg : group_count 65536 w = 65536 / w := by simp [group_count]
  rw [hg]
  exact ⟨(Nat.le_div_iff_mul_le (by omega)).mpr (by omega), Nat.div_le_self _ _⟩

/-- Every sample is bounded by `CImg::max()`. -/
theorem foldl_max_ge (l : List Nat) (a : Nat) :
    a ≤ l.foldl Nat.max a ∧ ∀ s ∈ l, s ≤ l.foldl Nat.max a := by
  induction l generalizing a with
  | nil => simp
  | cons x xs ih =>
    simp only [List.foldl_cons, List.mem_cons]
    have h := ih (Nat.max a x)
    refine ⟨le_trans (Nat.le_max_left a x) h.1, ?_⟩
    rintro s (rfl | hs)
    · exact le_trans (Nat.le_max_right a s) h.1
    · exact h.2 s hs

/-- The fallback rule on the host logic: for segment widths between 1 and 65536
the Blelloch block-sum kernel is bound only for a power-of-two block count. -/
theorem blelloch_only_for_pow2_blocks (requested : Int) (w : Nat) (h1 : 1 ≤ w)
    (h2 : w ≤ 65536)
    (hsel : (kernel2_helper2 (mode_id requested 65536 w) 65536).name
      = some KernelName.get_scanned_BS_2) :
    ∃ k, group_count 65536 w = 2 ^ k := by
  obtain ⟨hb1, hb2⟩ := group_count_16_bounds w h1 h2
  have hiff := not_pow2_test_eq_zero_iff (group_count 65536 w) (by omega)
    (by unfold SIZE_MOD; omega)
  by_contra hnp
  have hne : not_pow2_test (group_count 65536 w) ≠ 0 := fun h => hnp (hiff.mp h)
  by_cases hr : requested = 1
  · have hm : mode_id requested 65536 w = 0 := by simp [mode_id, hr, hne]
    rw [hm] at hsel
    simp [kernel2_helper2] at hsel
  · have hm : mode_id requested 65536 w = requested := by simp [mode_id, hr]
    rw [hm] at hsel
    unfold kernel2_helper2 at hsel
    split_ifs at hsel <;> simp_all

/-- The silent downgrade on the host logic: for segment widths between 1 and
65536 and a block count that is not a power of two, mode 1 and mode 0 push the
same commands. -/
theorem downgrade_same_queue (img : CImg) (w : Nat) (h16 : bin_count img = 65536)
    (h1 : 1 ≤ w) (h2 : w ≤ 65536) (hnp : ¬ ∃ k, group_count 65536 w = 2 ^ k) :
    main_queue img 1 w = main_queue img 0 w ∧ (main_queue img 1 w).isSome = true := by
  obtain ⟨hb1, hb2⟩ := group_count_16_bounds w h1 h2
  have hiff := not_pow2_test_eq_zero_iff (group_count 65536 w) (by omega)
    (by unfold SIZE_MOD; omega)
  have hne : not_pow2_test (group_count 65536 w) ≠ 0 := fun h => hnp (hiff.mp h)
  have hm1 : mode_id 1 (bin_count img) w = 0 := by simp [mode_id, h16, hne]
  have hm0 : mode_id 0 (bin_count img) w = 0 := by simp [mode_id]
  have hw : w ≠ 0 := by omega
  simp [main_queue, hm1, hm0, hw]

/-! ## Mode and kernel selection -/

/-- The reassignment of line 155 taken alone: a reported segment width of 131072
on a 16-bit image gives the block count 0, which is not a power of two; the bit
test `group_count & (group_count - 1)` is 0 there, so mode 1 is kept and the
queue `main` would push dispatches `get_scanned_BS_2`.  The run does not get that
far: the block-sum buffer is empty and its creation is refused (`main_run`). -/
theorem fallback_misses_zero_block_count :
    group_count 65536 131072 = 0 ∧
    (¬ ∃ k : Nat, group_count 65536 131072 = 2 ^ k) ∧
    not_pow2_test (group_count 65536 131072) = 0 ∧
    mode_id 1 65536 131072 = 1 ∧
    (kernel2_helper2 (mode_id 1 65536 131072) 65536).name = some KernelName.get_scanned_BS_2 ∧
    bin_count ⟨1, 1, 1, 1, [256]⟩ = 65536 ∧
    Command.ndrange ⟨some KernelName.get_scanned_BS_2, [(0, Arg.buffer buffer_BS)]⟩ 0 (some 0)
      ∈ (main_queue ⟨1, 1, 1, 1, [256]⟩ 1 131072).getD [] := by
  refine ⟨by decide, ?_, by decide, by decide, by decide, by decide, by decide⟩
  rintro ⟨k, hk⟩
  have h0 : group_count 65536 131072 = 0 := by decide
  rw [h0] at hk
  exact absurd hk.symm (pow_ne_zero k (by decide))

/-- The reassignment of line 155 taken alone: for a reported segment width of
131072 the queue `main` would push for requested mode 1 is not the queue for
requested mode 0.  Neither run gets that far: both end at the creation of the
empty block-sum buffer (`main_run`). -/
theorem downgrade_misses_zero_block_count :
    bin_count ⟨1, 1, 1, 1, [256]⟩ = 65536 ∧
    (¬ ∃ k : Nat, group_count (bin_count ⟨1, 1, 1, 1, [256]⟩) 131072 = 2 ^ k) ∧
    main_queue ⟨1, 1, 1, 1, [256]⟩ 1 131072 ≠ main_queue ⟨1, 1, 1, 1, [256]⟩ 0 131072 ∧
    kernel2_helper2_dispatch (mode_id 1 65536 131072) 65536 131072
      = Command.ndrange ⟨some KernelName.get_scanned_BS_2, [(0, Arg.buffer buffer_BS)]⟩ 0 (some 0) ∧
    kernel2_helper2_dispatch (mode_id 0 65536 131072) 65536 131072
      = Command.ndrange ⟨some KernelName.get_scanned_BS_1,
          [(1, Arg.buffer buffer_BS_scanned), (0, Arg.buffer buffer_BS)]⟩ 0 none := by
  refine ⟨by decide, ?_, by decide, by decide, by decide⟩
  rintro ⟨k, hk⟩
  have h0 : group_count (bin_count ⟨1, 1, 1, 1, [256]⟩) 131072 = 0 := by decide
  rw [h0] at hk
  exact absurd hk.symm (pow_ne_zero k (by decide))

/-- C3 (counterexample): on the 16-bit image of one sample 256 with segment width
256, and on the 8-bit image of one sample 7, mode id 2 binds the serial
`get_chist` kernel and pushes exactly the commands of mode id 3. -/
theorem mode2_equals_mode3_example :
    (kernel2 (mode_id 2 65536 256) 65536 256).name = some KernelName.get_chist ∧
    main_queue ⟨1, 1, 1, 1, [256]⟩ 2 256 = main_queue ⟨1, 1, 1, 1, [256]⟩ 3 256 ∧
    (kernel2 (mode_id 2 256 256) 256 256).name = some KernelName.get_chist ∧
    main_queue ⟨1, 1, 1, 1, [7]⟩ 2 256 = main_queue ⟨1, 1, 1, 1, [7]⟩ 3 256 := by
  decide

/-- C3 (amended): mode id 2 is the basic path.  For every image and segment
width, mode id 2 binds the serial `get_chist` kernel, creates none of the
block-sum helper kernels, and pushes exactly the commands of every other mode
id outside 0 and 1. -/
theorem mode2_is_basic_path (img : CImg) (requested : Int) (w : Nat)
    (h0 : requested ≠ 0) (h1 : requested ≠ 1) :
    (kernel2 (mode_id 2 (bin_count img) w) (bin_count img) w).name = some KernelName.get_chist ∧
    (kernel2_helper1 (mode_id 2 (bin_count img) w) (bin_count img) w).name = none ∧
    (kernel2_helper2 (mode_id 2 (bin_count img) w) (bin_count img)).name = none ∧
    (kernel2_helper3 (mode_id 2 (bin_count img) w) (bin_count img)).name = none ∧
    main_queue img 2 w = main_queue img requested w := by
  have hm2 : mode_id 2 (bin_count img) w = 2 := by simp [mode_id]
  have hmr : mode_id requested (bin_count img) w = requested := by simp [mode_id, h1]
  refine ⟨by simp [hm2, kernel2], by simp [hm2, kernel2_helper1],
    by simp [hm2, kernel2_helper2], by simp [hm2, kernel2_helper3], ?_⟩
  simp [main_queue, hm2, hmr, upload_commands, kernel_dispatches, readback_commands,
    kernel1_dispatch, scan_dispatches, kernel1, kernel2, h0, h1]

/-- Witness for `mode2_is_basic_path`: mode id 3 on a 16-bit image, width 256. -/
theorem mode2_is_basic_path_witness :
    (3 : Int) ≠ 0 ∧ (3 : Int) ≠ 1 ∧
    main_queue ⟨1, 1, 1, 1, [256]⟩ 2 256 = main_queue ⟨1, 1, 1, 1, [256]⟩ 3 256 :=
  ⟨by decide, by decide,
    (mode2_is_basic_path ⟨1, 1, 1, 1, [256]⟩ 3 256 (by decide) (by decide)).2.2.2.2⟩

/-- C4: for a bin count of 256 or 65536 and every requested mode id, with `m` the
mode id in effect, `get_hist_8LC` is bound exactly when the bin count is 256 and
`m` is 0 or 1; it is then dispatched over the padded sample count with group size
256 and a scratch histogram of `bins` counters; otherwise `get_hist_8` (8-bit) or
`get_hist_16` (16-bit, every mode) is bound and dispatched over exactly the
sample count with no group size. -/
theorem histogram_variant_selection (requested : Int) (bins w elements : Nat)
    (hb : bins = 256 ∨ bins = 65536) :
    ((kernel1 (mode_id requested bins w) bins elements).name = some KernelName.get_hist_8LC ↔
      bins = 256 ∧ (mode_id requested bins w = 0 ∨ mode_id requested bins w = 1)) ∧
    (bins = 256 ∧ (mode_id requested bins w = 0 ∨ mode_id requested bins w = 1) →
      kernel1_dispatch (mode_id requested bins w) bins elements
        = Command.ndrange (kernel1 (mode_id requested bins w) bins elements)
            (kernel1_global_elements_8 elements) (some 256) ∧
      (2, Arg.localMem (bins * sizeof_standard))
        ∈ (kernel1 (mode_id requested bins w) bins elements).args) ∧
    (¬ (bins = 256 ∧ (mode_id requested bins w = 0 ∨ mode_id requested bins w = 1)) →
      (kernel1 (mode_id requested bins w) bins elements).name
        = some (if bins = 256 then KernelName.get_hist_8 else KernelName.get_hist_16) ∧
      kernel1_dispatch (mode_id requested bins w) bins elements
        = Command.ndrange (kernel1 (mode_id requested bins w) bins elements)
            elements none) ∧
    (bins = 65536 →
      (kernel1 (mode_id requested bins w) bins elements).name = some KernelName.get_hist_16) := by
  generalize mode_id requested bins w = m
  rcases hb with rfl | rfl
  · by_cases hm : m = 0 ∨ m = 1
    · simp [kernel1, kernel1_dispatch, hm, local_elements_8, local_size_8]
    · simp [kernel1, kernel1_dispatch, hm]
  · by_cases hm : m = 0 ∨ m = 1
    · simp [kernel1, kernel1_dispatch, hm]
    · simp [kernel1, kernel1_dispatch, hm]

/-- Witness for `histogram_variant_selection`: automatic mode on an 8-bit image of
1000 samples binds `get_hist_8LC`. -/
theorem histogram_variant_selection_witness :
    ((256 : Nat) = 256 ∨ (256 : Nat) = 65536) ∧
    (kernel1 (mode_id 0 256 256) 256 1000).name = some KernelName.get_hist_8LC :=
  ⟨by decide,
    (histogram_variant_selection 0 256 256 1000 (by decide)).1.mpr ⟨rfl, by decide⟩⟩

/-! ## Scan strategies -/

/-- Reading a round's result: inside the array the new value, outside 0. -/
theorem getD_map_range (f : Nat → Nat) (n i : Nat) :
    ((List.range n).map f).getD i 0 = if i < n then f i else 0 := by
  by_cases h : i < n
  · simp [h, List.getElem?_range h]
  · have hlen : ((List.range n).map f).length ≤ i := by simp; omega
    rw [List.getD_eq_default _ _ hlen]
    simp [h]

/-- The sum of the first `i + 1` bins is the sum of the first `i` plus bin `i`. -/
theorem sum_take_succ_getD (H : List Nat) (i : Nat) (hi : i < H.length) :
    (H.take (i + 1)).sum = (H.take i).sum + H.getD i 0 := by
  rw [List.sum_take_succ H i hi, List.getD_eq_getElem H 0 hi]

/-- The serial pass yields the running totals. -/
theorem serial_from_eq (H : List Nat) (acc : Nat) :
    serial_from acc H = (List.range H.length).map (fun i => acc + (H.take (i + 1)).sum) := by
  induction H generalizing acc with
  | nil => simp [serial_from]
  | cons x xs ih =>
    rw [serial_from, ih, List.length_cons, List.range_succ_eq_map, List.map_cons, List.map_map]
    simp only [List.take_succ_cons, List.sum_cons, List.take_zero, List.sum_nil, add_zero,
      List.cons.injEq, true_and]
    apply List.map_congr_left
    intro i _
    simp only [Function.comp, Nat.succ_eq_add_one, List.take_succ_cons, List.sum_cons]
    omega

/-- The serial exclusive pass yields the totals of the preceding entries. -/
theorem exclusive_from_eq (B : List Nat) (acc : Nat) :
    exclusive_from acc B = (List.range B.length).map (fun k => acc + (B.take k).sum) := by
  induction B generalizing acc with
  | nil => simp [exclusive_from]
  | cons x xs ih =>
    rw [exclusive_from, ih, List.length_cons, List.range_succ_eq_map, List.map_cons, List.map_map]
    simp only [List.take_zero, List.sum_nil, add_zero, List.cons.injEq, true_and]
    apply List.map_congr_left
    intro i _
    simp only [Function.comp, Nat.succ_eq_add_one, List.take_succ_cons, List.sum_cons]
    omega

/-- The serial scan computes the inclusive sums. -/
theorem get_chist_eq (H : List Nat) : get_chist H = inclusive_sums H := by
  unfold get_chist inclusive_sums
  rw [serial_from_eq]
  simp

/-- A Hillis-Steele round keeps the length. -/
theorem hs_round_length (w s : Nat) (A : List Nat) : (hs_round w s A).length = A.length := by
  simp [hs_round]

/-- Hillis-Steele rounds keep the length. -/
theorem hs_rounds_length (w r : Nat) (A : List Nat) : (hs_rounds w r A).length = A.length := by
  induction r with
  | zero => rfl
  | succ r ih => rw [hs_rounds, hs_round_length, ih]

/-- Stepping back by at most the position inside a segment stays in the segment. -/
theorem div_sub_of_le_mod (i w s : Nat) (hw : 0 < w) (hs : s ≤ i % w) :
    (i - s) / w = i / w := by
  have h1 := Nat.div_add_mod' i w
  have h2 : i - s = (i % w - s) + (i / w) * w := by omega
  have h3 : i % w < w := Nat.mod_lt _ hw
  rw [h2, Nat.add_mul_div_right _ _ hw, Nat.div_eq_of_lt (by omega)]
  simp

/-- Invariant of the Hillis-Steele rounds: after `r` rounds element `i` holds the sum
of the bins from `max (segment start) (i + 1 - 2 ^ r)` up to `i`. -/
theorem hs_rounds_inv (H : List Nat) (w : Nat) (hw : 0 < w) (r i : Nat) (hi : i < H.length) :
    (hs_rounds w r H).getD i 0 + (H.take (max (i / w * w) (i + 1 - 2 ^ r))).sum
      = (H.take (i + 1)).sum := by
  induction r generalizing i with
  | zero =>
    have hg : i / w * w ≤ i := Nat.div_mul_le_self i w
    have hmax : max (i / w * w) (i + 1 - 2 ^ 0) = i := by simp; exact hg
    rw [hmax, hs_rounds, sum_take_succ_getD H i hi]
    omega
  | succ r ih =>
    have hdm := Nat.div_add_mod' i w
    have hml : i % w < w := Nat.mod_lt _ hw
    have hpos : 0 < 2 ^ r := Nat.pow_pos (by decide)
    have hp2 : 2 ^ (r + 1) = 2 ^ r + 2 ^ r := by rw [pow_succ]; omega
    have hlen := hs_rounds_length w r H
    rw [hs_rounds, hs_round, getD_map_range, hlen, if_pos hi]
    have hI := ih i hi
    by_cases hs : 2 ^ r ≤ i % w
    · rw [if_pos hs]
      have hJ := ih (i - 2 ^ r) (by omega)
      rw [div_sub_of_le_mod i w (2 ^ r) hw hs] at hJ
      have e1 : max (i / w * w) (i + 1 - 2 ^ r) = i + 1 - 2 ^ r := by omega
      have e2 : max (i / w * w) (i - 2 ^ r + 1 - 2 ^ r) = max (i / w * w) (i + 1 - 2 ^ (r + 1)) := by
        omega
      have e3 : i - 2 ^ r + 1 = i + 1 - 2 ^ r := by omega
      rw [e1] at hI
      rw [e2, e3] at hJ
      omega
    · rw [if_neg hs]
      have e1 : max (i / w * w) (i + 1 - 2 ^ r) = i / w * w := by omega
      have e2 : max (i / w * w) (i + 1 - 2 ^ (r + 1)) = i / w * w := by omega
      rw [e1] at hI
      rw [e2]
      exact hI

/-- After all rounds element `i` holds the sum of its segment up to `i`. -/
theorem get_chist_HS_local (H : List Nat) (w : Nat) (hw : 0 < w) (i : Nat) (hi : i < H.length) :
    (get_chist_HS w H).getD i 0 + (H.take (i / w * w)).sum = (H.take (i + 1)).sum := by
  have h := hs_rounds_inv H w hw (Nat.clog 2 w) i hi
  have hc : w ≤ 2 ^ Nat.clog 2 w := Nat.le_pow_clog (by decide) w
  have hdm := Nat.div_add_mod' i w
  have hml : i % w < w := Nat.mod_lt _ hw
  have e : max (i / w * w) (i + 1 - 2 ^ Nat.clog 2 w) = i / w * w := by omega
  rw [e] at h
  exact h

/-- The first `k` block sums add up to the first `k * w` bins. -/
theorem block_sums_take (H : List Nat) (w groups : Nat) (hw : 0 < w) (k : Nat)
    (hk : k ≤ groups) (hkw : k * w ≤ H.length) :
    ((get_B_S w groups (get_chist_HS w H)).take k).sum = (H.take (k * w)).sum := by
  induction k with
  | zero => simp
  | succ k ih =>
    have hmul : (k + 1) * w = k * w + w := by rw [Nat.add_mul, Nat.one_mul]
    have hlen : (get_B_S w groups (get_chist_HS w H)).length = groups := by simp [get_B_S]
    rw [sum_take_succ_getD _ k (by omega), ih (by omega) (by omega)]
    have hget : (get_B_S w groups (get_chist_HS w H)).getD k 0
        = (get_chist_HS w H).getD ((k + 1) * w - 1) 0 := by
      rw [get_B_S, getD_map_range, if_pos (by omega)]
    have hdiv : ((k + 1) * w - 1) / w = k := by
      have h1 : (k + 1) * w - 1 = (w - 1) + k * w := by omega
      rw [h1, Nat.add_mul_div_right _ _ hw, Nat.div_eq_of_lt (by omega)]
      simp
    have hloc := get_chist_HS_local H w hw ((k + 1) * w - 1) (by omega)
    rw [hdiv] at hloc
    have e : (k + 1) * w - 1 + 1 = (k + 1) * w := by omega
    rw [e] at hloc
    rw [hget]
    omega

/-- Adding exclusive block offsets to the local scans gives the inclusive sums. -/
theorem complete_chist_eq (H : List Nat) (w groups : Nat) (hw : 0 < w)
    (hcover : H.length ≤ groups * w) (S : List Nat)
    (hS : ∀ k, k < groups →
      S.getD k 0 = ((get_B_S w groups (get_chist_HS w H)).take k).sum) :
    get_complete_chist w S (get_chist_HS w H) = inclusive_sums H := by
  unfold get_complete_chist inclusive_sums
  have hlen : (get_chist_HS w H).length = H.length := hs_rounds_length w _ H
  rw [hlen]
  apply List.map_congr_left
  intro i hi
  have hi2 : i < H.length := List.mem_range.mp hi
  have hg : i / w * w ≤ i := Nat.div_mul_le_self i w
  have hk : i / w < groups := by
    apply Nat.div_lt_of_lt_mul
    rw [Nat.mul_comm]
    omega
  rw [hS (i / w) hk, block_sums_take H w groups hw (i / w) (by omega) (by omega)]
  exact get_chist_HS_local H w hw i hi2

/-- The mode-0 chain computes the inclusive sums. -/
theorem chist_mode0_eq (H : List Nat) (w groups : Nat) (hw : 0 < w)
    (hcover : H.length ≤ groups * w) :
    chist_mode0 w groups H = inclusive_sums H := by
  apply complete_chist_eq H w groups hw hcover
  intro k hk
  have hlen : (get_B_S w groups (get_chist_HS w H)).length = groups := by simp [get_B_S]
  rw [get_scanned_BS_1, exclusive_from_eq, getD_map_range, hlen, if_pos hk]
  omega

/-- An up-sweep round keeps the length. -/
theorem up_round_length (s : Nat) (A : List Nat) : (up_round s A).length = A.length := by
  simp [up_round]

/-- Up-sweep rounds keep the length. -/
theorem up_rounds_length (d : Nat) (A : List Nat) : (up_rounds d A).length = A.length := by
  induction d with
  | zero => rfl
  | succ d ih => rw [up_rounds, up_round_length, ih]

/-- A down-sweep round keeps the length. -/
theorem down_round_length (s : Nat) (A : List Nat) : (down_round s A).length = A.length := by
  simp [down_round]

/-- Clearing the last element keeps the length. -/
theorem clear_last_length (A : List Nat) : (clear_last A).length = A.length := by
  simp [clear_last]

/-- Clearing the last element changes that element only. -/
theorem clear_last_getD (A : List Nat) (i : Nat) :
    (clear_last A).getD i 0 = if i = A.length - 1 then 0 else A.getD i 0 := by
  unfold clear_last
  by_cases h : i = A.length - 1
  · subst h
    simp [List.getElem?_set]
    split_ifs <;> simp
  · have h2 : A.length - 1 ≠ i := fun e => h e.symm
    simp [List.getElem?_set, h, h2]

/-- Invariant of the up-sweep: after `d` rounds an element whose index plus one has
2-adic order `e < d`, or order at least `e = d`, holds the sum of the `2 ^ e`
entries ending at it. -/
theorem up_rounds_inv (B : List Nat) (d i e : Nat) (hi : i < B.length) (he : e ≤ d)
    (hdiv : 2 ^ e ∣ i + 1) (hor : e = d ∨ ¬ 2 ^ (e + 1) ∣ i + 1) :
    (up_rounds d B).getD i 0 + (B.take (i + 1 - 2 ^ e)).sum = (B.take (i + 1)).sum := by
  induction d generalizing i e with
  | zero =>
    have he0 : e = 0 := by omega
    subst he0
    rw [up_rounds, sum_take_succ_getD B i hi]
    simp
    omega
  | succ d ih =>
    have hpos : 0 < 2 ^ d := Nat.pow_pos (by decide)
    have hp2 : 2 ^ (d + 1) = 2 ^ d + 2 ^ d := by rw [pow_succ]; omega
    rw [up_rounds, up_round, getD_map_range, up_rounds_length, if_pos hi]
    by_cases h2 : (i + 1) % (2 ^ d * 2) = 0
    · rw [if_pos h2]
      have hdvd : 2 ^ (d + 1) ∣ i + 1 := by
        rw [pow_succ]; exact Nat.dvd_of_mod_eq_zero h2
      have hed : e = d + 1 := by
        rcases hor with h | h
        · exact h
        · by_contra hne
          exact h (dvd_trans (pow_dvd_pow 2 (by omega)) hdvd)
      subst hed
      have hle : 2 ^ (d + 1) ≤ i + 1 := Nat.le_of_dvd (Nat.succ_pos i) hdvd
      have hdvd1 : 2 ^ d ∣ i + 1 := dvd_trans (pow_dvd_pow 2 (Nat.le_succ d)) hdvd
      have e3 : i - 2 ^ d + 1 = i + 1 - 2 ^ d := by omega
      have hdvd2 : 2 ^ d ∣ i - 2 ^ d + 1 := by
        rw [e3]; exact Nat.dvd_sub' hdvd1 (dvd_refl _)
      have hI := ih i d hi le_rfl hdvd1 (Or.inl rfl)
      have hJ := ih (i - 2 ^ d) d (by omega) le_rfl hdvd2 (Or.inl rfl)
      have e4 : i - 2 ^ d + 1 - 2 ^ d = i + 1 - 2 ^ (d + 1) := by omega
      rw [e4, e3] at hJ
      omega
    · rw [if_neg h2]
      have hnd : ¬ 2 ^ (d + 1) ∣ i + 1 := by
        rw [pow_succ]; exact fun h => h2 (Nat.mod_eq_zero_of_dvd h)
      have hed : e ≠ d + 1 := by
        rintro rfl; exact hnd hdiv
      have hor2 : e = d ∨ ¬ 2 ^ (e + 1) ∣ i + 1 := by
        rcases hor with h | h
        · exact absurd h hed
        · exact Or.inr h
      exact ih i e hi (by omega) hdiv hor2

/-- One down-sweep round with stride `2 ^ d` takes the invariant of level `d + 1`
to level `d`: right ends of blocks of `2 ^ d` hold the total before their block,
the other elements still hold their up-sweep sums. -/
theorem down_round_inv (B A : List Nat) (K d : Nat) (hd : d < K) (hN : B.length = 2 ^ K)
    (hA : A.length = B.length)
    (h1 : ∀ i, i < B.length → 2 ^ (d + 1) ∣ i + 1 →
      A.getD i 0 = (B.take (i + 1 - 2 ^ (d + 1))).sum)
    (h2 : ∀ i e, i < B.length → e < d + 1 → 2 ^ e ∣ i + 1 → ¬ 2 ^ (e + 1) ∣ i + 1 →
      A.getD i 0 + (B.take (i + 1 - 2 ^ e)).sum = (B.take (i + 1)).sum) :
    (∀ i, i < B.length → 2 ^ d ∣ i + 1 →
      (down_round (2 ^ d) A).getD i 0 = (B.take (i + 1 - 2 ^ d)).sum) ∧
    (∀ i e, i < B.length → e < d → 2 ^ e ∣ i + 1 → ¬ 2 ^ (e + 1) ∣ i + 1 →
      (down_round (2 ^ d) A).getD i 0 + (B.take (i + 1 - 2 ^ e)).sum
        = (B.take (i + 1)).sum) := by
  have hpos : 0 < 2 ^ d := Nat.pow_pos (by decide)
  have hp2 : 2 ^ (d + 1) = 2 ^ d + 2 ^ d := by rw [pow_succ]; omega
  have hmod : ∀ x : Nat, x % (2 ^ d * 2) = 0 ↔ 2 ^ (d + 1) ∣ x := by
    intro x
    rw [pow_succ]
    exact ⟨Nat.dvd_of_mod_eq_zero, Nat.mod_eq_zero_of_dvd⟩
  have hget : ∀ i, i < B.length → (down_round (2 ^ d) A).getD i 0
      = if 2 ^ (d + 1) ∣ i + 1 then A.getD i 0 + A.getD (i - 2 ^ d) 0
        else if i + 2 ^ d < B.length ∧ 2 ^ (d + 1) ∣ i + 2 ^ d + 1 then A.getD (i + 2 ^ d) 0
        else A.getD i 0 := by
    intro i hi
    rw [down_round, getD_map_range, hA, if_pos hi]
    simp only [hmod]
  constructor
  · intro i hi hdvd
    rw [hget i hi]
    by_cases hb : 2 ^ (d + 1) ∣ i + 1
    · rw [if_pos hb]
      have hle : 2 ^ (d + 1) ≤ i + 1 := Nat.le_of_dvd (Nat.succ_pos i) hb
      have e3 : i - 2 ^ d + 1 = i + 1 - 2 ^ d := by omega
      have hdvd2 : 2 ^ d ∣ i - 2 ^ d + 1 := by
        rw [e3]; exact Nat.dvd_sub' hdvd (dvd_refl _)
      have hnd2 : ¬ 2 ^ (d + 1) ∣ i - 2 ^ d + 1 := by
        intro h
        rw [e3] at h
        have h3 : 2 ^ (d + 1) ∣ i + 1 - (i + 1 - 2 ^ d) := Nat.dvd_sub' hb h
        have e5 : i + 1 - (i + 1 - 2 ^ d) = 2 ^ d := by omega
        rw [e5] at h3
        have := Nat.le_of_dvd hpos h3
        omega
      have hI := h1 i hi hb
      have hJ := h2 (i - 2 ^ d) d (by omega) (by omega) hdvd2 hnd2
      have e4 : i - 2 ^ d + 1 - 2 ^ d = i + 1 - 2 ^ (d + 1) := by omega
      rw [e4, e3] at hJ
      omega
    · rw [if_neg hb]
      obtain ⟨c, hc⟩ := hdvd
      obtain ⟨M, hM⟩ : 2 ^ (d + 1) ∣ B.length := by
        rw [hN]; exact pow_dvd_pow 2 (by omega)
      rcases Nat.even_or_odd' c with ⟨c', hc' | hc'⟩
      · exfalso
        apply hb
        exact ⟨c', by rw [hc, hc', pow_succ]; ring⟩
      · have hnext : i + 2 ^ d + 1 = 2 ^ (d + 1) * (c' + 1) := by
          have : i + 2 ^ d + 1 = (i + 1) + 2 ^ d := by omega
          rw [this, hc, hc', pow_succ]; ring
        have hcM : c' + 1 ≤ M := by
          by_contra hlt
          have hMc : M ≤ c' := by omega
          have h5 : 2 ^ (d + 1) * M ≤ 2 ^ (d + 1) * c' := Nat.mul_le_mul_left _ hMc
          have h6 : i + 1 = 2 ^ (d + 1) * c' + 2 ^ d := by
            rw [hc, hc', pow_succ]; ring
          omega
        have hlt : i + 2 ^ d < B.length := by
          have h5 : 2 ^ (d + 1) * (c' + 1) ≤ 2 ^ (d + 1) * M := Nat.mul_le_mul_left _ hcM
          omega
        have hdv : 2 ^ (d + 1) ∣ i + 2 ^ d + 1 := ⟨c' + 1, hnext⟩
        rw [if_pos ⟨hlt, hdv⟩, h1 (i + 2 ^ d) hlt hdv]
        have e6 : i + 2 ^ d + 1 - 2 ^ (d + 1) = i + 1 - 2 ^ d := by omega
        rw [e6]
  · intro i e hi he hdvd hnd
    rw [hget i hi]
    have hbig : 2 ^ (e + 1) ∣ 2 ^ d := pow_dvd_pow 2 (by omega)
    have hb : ¬ 2 ^ (d + 1) ∣ i + 1 := fun h =>
      hnd (dvd_trans (dvd_trans hbig (pow_dvd_pow 2 (Nat.le_succ d))) h)
    have hc : ¬ 2 ^ (d + 1) ∣ i + 2 ^ d + 1 := by
      intro h
      have h3 : 2 ^ (e + 1) ∣ i + 2 ^ d + 1 :=
        dvd_trans (dvd_trans hbig (pow_dvd_pow 2 (Nat.le_succ d))) h
      have h4 : 2 ^ (e + 1) ∣ i + 2 ^ d + 1 - 2 ^ d := Nat.dvd_sub' h3 hbig
      have e7 : i + 2 ^ d + 1 - 2 ^ d = i + 1 := by omega
      rw [e7] at h4
      exact hnd h4
    rw [if_neg hb, if_neg (fun h => hc h.2)]
    exact h2 i e hi (by omega) hdvd hnd

/-- Down-sweep rounds keep the length. -/
theorem down_rounds_length (d : Nat) (A : List Nat) : (down_rounds d A).length = A.length := by
  induction d generalizing A with
  | zero => rfl
  | succ d ih => rw [down_rounds, ih, down_round_length]

/-- From the invariant of level `d`, `d` down-sweep rounds leave in every element
the total of the entries before it. -/
theorem down_rounds_inv (B : List Nat) (K d : Nat) (hd : d ≤ K) (hN : B.length = 2 ^ K)
    (A : List Nat) (hA : A.length = B.length)
    (h1 : ∀ i, i < B.length → 2 ^ d ∣ i + 1 → A.getD i 0 = (B.take (i + 1 - 2 ^ d)).sum)
    (h2 : ∀ i e, i < B.length → e < d → 2 ^ e ∣ i + 1 → ¬ 2 ^ (e + 1) ∣ i + 1 →
      A.getD i 0 + (B.take (i + 1 - 2 ^ e)).sum = (B.take (i + 1)).sum)
    (i : Nat) (hi : i < B.length) :
    (down_rounds d A).getD i 0 = (B.take i).sum := by
  induction d generalizing A with
  | zero =>
    have h := h1 i hi (by simp)
    simpa [down_rounds] using h
  | succ d ih =>
    obtain ⟨g1, g2⟩ := down_round_inv B A K d (by omega) hN hA h1 h2
    rw [down_rounds]
    exact ih (by omega) (down_round (2 ^ d) A) (by rw [down_round_length, hA]) g1 g2

/-- On a power-of-two length the Blelloch scan is the exclusive scan. -/
theorem get_scanned_BS_2_getD (B : List Nat) (K : Nat) (hN : B.length = 2 ^ K) (i : Nat)
    (hi : i < B.length) :
    (get_scanned_BS_2 B).getD i 0 = (B.take i).sum := by
  have hlog : Nat.log 2 B.length = K := by rw [hN]; exact Nat.log_pow (by decide) K
  unfold get_scanned_BS_2
  rw [hlog]
  have hlenU : (up_rounds K B).length = B.length := up_rounds_length K B
  apply down_rounds_inv B K K le_rfl hN (clear_last (up_rounds K B))
    (by rw [clear_last_length, hlenU])
  · intro j hj hdvd
    have hle : 2 ^ K ≤ j + 1 := Nat.le_of_dvd (Nat.succ_pos j) hdvd
    have hj2 : j = (up_rounds K B).length - 1 := by omega
    rw [clear_last_getD, if_pos hj2]
    have e : j + 1 - 2 ^ K = 0 := by omega
    rw [e]; simp
  · intro j e hj he hdvd hnd
    have hj2 : j ≠ (up_rounds K B).length - 1 := by
      intro h
      apply hnd
      have e1 : j + 1 = 2 ^ K := by omega
      rw [e1]
      exact pow_dvd_pow 2 (by omega)
    rw [clear_last_getD, if_neg hj2]
    exact up_rounds_inv B K j e hj (by omega) hdvd (Or.inr hnd)
  · exact hi

/-- The Blelloch scan keeps the length. -/
theorem get_scanned_BS_2_length (B : List Nat) : (get_scanned_BS_2 B).length = B.length := by
  unfold get_scanned_BS_2
  rw [down_rounds_length, clear_last_length, up_rounds_length]

/-- The mode-1 chain computes the inclusive sums for a power-of-two block count. -/
theorem chist_mode1_eq (H : List Nat) (w groups : Nat) (hw : 0 < w)
    (hcover : H.length ≤ groups * w) (K : Nat) (hK : groups = 2 ^ K) :
    chist_mode1 w groups H = inclusive_sums H := by
  apply complete_chist_eq H w groups hw hcover
  intro k hk
  have hlen : (get_B_S w groups (get_chist_HS w H)).length = groups := by simp [get_B_S]
  exact get_scanned_BS_2_getD _ K (by rw [hlen, hK]) k (by rw [hlen]; exact hk)

/-- On a power-of-two length both block-sum scans return the same list. -/
theorem blelloch_eq_serial (B : List Nat) (K : Nat) (hN : B.length = 2 ^ K) :
    get_scanned_BS_2 B = get_scanned_BS_1 B := by
  rw [get_scanned_BS_1, exclusive_from_eq]
  apply List.ext_getElem
  · simp [get_scanned_BS_2_length]
  · intro i h1 h2
    have hi : i < B.length := by rw [get_scanned_BS_2_length] at h1; exact h1
    have := get_scanned_BS_2_getD B K hN i hi
    rw [List.getD_eq_getElem _ 0 h1] at this
    rw [this]
    simp

/-- A histogram that fits one segment is scanned completely by `get_chist_HS`. -/
theorem get_chist_HS_one_segment (H : List Nat) (w : Nat) (hw : 0 < w) (hlen : H.length ≤ w) :
    get_chist_HS w H = inclusive_sums H := by
  apply List.ext_getElem
  · simp [inclusive_sums, get_chist_HS, hs_rounds_length]
  · intro i h1 h2
    have hi : i < H.length := by
      rw [get_chist_HS, hs_rounds_length] at h1; exact h1
    have h := get_chist_HS_local H w hw i hi
    rw [Nat.div_eq_of_lt (by omega), List.getD_eq_getElem _ 0 h1] at h
    simp only [Nat.zero_mul, List.take_zero, List.sum_nil, add_zero] at h
    rw [h]
    simp [inclusive_sums]

/-- The block count the host computes for a 16-bit image covers the histogram
exactly when the segment width divides 65536. -/
theorem host_blocks_cover_iff (w : Nat) :
    65536 ≤ group_count 65536 w * w ↔ w ∣ 65536 := by
  have hg : group_count 65536 w = 65536 / w := by simp [group_count]
  have hdm := Nat.div_add_mod' 65536 w
  rw [hg, Nat.dvd_iff_mod_eq_zero]
  omega

/-- Where the blocks cover the histogram the scans agree: for every histogram
`H`, every segment width `w >= 1` and every block count `groups` with
`H.length <= groups * w`, the serial `get_chist`, the Hillis-Steele
`get_chist_HS` alone when `H` is one segment (8-bit path), the Hillis-Steele scan
with block-sum assembly and the serial block-sum scan (effective mode 0), and,
for a power-of-two block count, the assembly with the Blelloch block-sum scan
(effective mode 1) all give the inclusive sums of `H`.  The block count of the
host covers a 16-bit histogram only when `w` divides 65536
(`host_blocks_cover_iff`). -/
theorem scan_strategies_agree (H : List Nat) (w groups : Nat) (hw : 1 ≤ w)
    (hcover : H.length ≤ groups * w) :
    get_chist H = inclusive_sums H ∧
    (H.length ≤ w → get_chist_HS w H = inclusive_sums H) ∧
    chist_mode0 w groups H = inclusive_sums H ∧
    ((∃ K, groups = 2 ^ K) → chist_mode1 w groups H = inclusive_sums H) :=
  ⟨get_chist_eq H, get_chist_HS_one_segment H w hw, chist_mode0_eq H w groups hw hcover,
    fun ⟨K, hK⟩ => chist_mode1_eq H w groups hw hcover K hK⟩

/-- An instance of `scan_strategies_agree`: eight bins in four segments of width 2. -/
theorem scan_strategies_agree_witness :
    (1 : Nat) ≤ 2 ∧ [3, 1, 4, 1, 5, 9, 2, 6].length ≤ 4 * 2 ∧
    chist_mode1 2 4 [3, 1, 4, 1, 5, 9, 2, 6] = inclusive_sums [3, 1, 4, 1, 5, 9, 2, 6] :=
  ⟨by decide, by decide,
    (scan_strategies_agree [3, 1, 4, 1, 5, 9, 2, 6] 2 4 (by decide) (by decide)).2.2.2
      ⟨2, rfl⟩⟩

/-! ## Lookup-table total, bit depth, block sums and padding -/

/-- C6 (the code departs from the claim): for a 2 x 2 colour image (three
channels, 12 samples) the histogram kernel is dispatched over all 12 samples,
while the total bound to argument 3 of `get_LUT` is `width * height = 4`. -/
theorem lut_total_ignores_channels :
    CImg.WF ⟨2, 2, 1, 3, [10, 20, 30, 40, 50, 60, 70, 80, 90, 100, 110, 120]⟩ ∧
    input_image_elements ⟨2, 2, 1, 3, [10, 20, 30, 40, 50, 60, 70, 80, 90, 100, 110, 120]⟩
      = 12 ∧
    lut_total_arg ⟨2, 2, 1, 3, [10, 20, 30, 40, 50, 60, 70, 80, 90, 100, 110, 120]⟩ = 4 ∧
    (3, Arg.int 4)
      ∈ (kernel3 ⟨2, 2, 1, 3, [10, 20, 30, 40, 50, 60, 70, 80, 90, 100, 110, 120]⟩).args ∧
    kernel1_dispatch 3 256
        (input_image_elements ⟨2, 2, 1, 3, [10, 20, 30, 40, 50, 60, 70, 80, 90, 100, 110, 120]⟩)
      = Command.ndrange
          ⟨some KernelName.get_hist_8, [(0, Arg.buffer buffer_input_image), (1, Arg.buffer buffer_H)]⟩
          12 none := by
  refine ⟨?_, by decide, by decide, by decide, by decide⟩
  unfold CImg.WF
  decide

/-- C7: for every well-formed image of `unsigned short` samples, the bin count is
256 when the largest sample is at most 255 and 65536 otherwise; every sample is
below the bin count; the uploaded samples are the image samples unchanged; every
sample fits the uploaded sample width; the remap kernel is `get_Output8` exactly
for bin count 256 and `get_Output16` otherwise; and the output buffer and the
host vector read back have the sample count and bytes per sample of the input. -/
theorem bit_depth_handling (img : CImg) (w : Nat) (hwf : img.WF) :
    bin_count img = (if img.max ≤ 255 then 256 else 65536) ∧
    (∀ s ∈ img.data, s < bin_count img) ∧
    uploaded_samples img = img.data ∧
    (∀ s ∈ img.data, s < 2 ^ (8 * sample_bytes img)) ∧
    ((kernel4 (bin_count img)).name = some KernelName.get_Output8 ↔ bin_count img = 256) ∧
    ((kernel4 (bin_count img)).name = some KernelName.get_Output16 ↔ bin_count img ≠ 256) ∧
    output_buffer_elements img = input_image_elements img ∧
    output_sample_bytes img = sample_bytes img ∧
    buffer_bytes img w buffer_output_image = buffer_bytes img w buffer_input_image ∧
    output_read_bytes img = input_image_size img := by
  have hmax : ∀ s ∈ img.data, s ≤ img.max := (foldl_max_ge img.data 0).2
  have hlt : ∀ s ∈ img.data, s < bin_count img := by
    intro s hs
    have h1 := hmax s hs
    have h2 := hwf.2 s hs
    unfold bin_count
    split_ifs <;> omega
  have hup : uploaded_samples img = img.data := by
    unfold uploaded_samples
    split_ifs with hb
    · conv_rhs => rw [← List.map_id img.data]
      apply List.map_congr_left
      intro s hs
      have := hlt s hs
      rw [hb] at this
      simpa using Nat.mod_eq_of_lt this
    · conv_rhs => rw [← List.map_id img.data]
      apply List.map_congr_left
      intro s hs
      simpa using Nat.mod_eq_of_lt (hwf.2 s hs)
  refine ⟨rfl, hlt, hup, ?_, ?_, ?_, rfl, rfl, rfl, rfl⟩
  · intro s hs
    have h1 := hlt s hs
    have h2 := hwf.2 s hs
    unfold sample_bytes
    split_ifs with hb
    · rw [hb] at h1; simpa using h1
    · simpa using h2
  · by_cases hb : bin_count img = 256 <;> simp [kernel4, hb]
  · by_cases hb : bin_count img = 256 <;> simp [kernel4, hb]

/-- Witness for `bit_depth_handling`: a 2 x 1 image with samples 3 and 200. -/
theorem bit_depth_handling_witness :
    CImg.WF ⟨2, 1, 1, 1, [3, 200]⟩ ∧ bin_count ⟨2, 1, 1, 1, [3, 200]⟩ = 256 ∧
    uploaded_samples ⟨2, 1, 1, 1, [3, 200]⟩ = [3, 200] :=
  ⟨by unfold CImg.WF; decide, by decide,
    (bit_depth_handling ⟨2, 1, 1, 1, [3, 200]⟩ 256 (by unfold CImg.WF; decide)).2.2.1⟩

/-- C8 (counterexample): with a segment width of 128 the block count 512 is a
power of two, mode 1 stays in effect, and `get_scanned_BS_2` is dispatched as one
group of 512 work-items, more than the segment width. -/
theorem block_scan_exceeds_segment_example :
    mode_id 1 65536 128 = 1 ∧
    kernel2_helper2_dispatch (mode_id 1 65536 128) 65536 128
      = Command.ndrange ⟨some KernelName.get_scanned_BS_2, [(0, Arg.buffer buffer_BS)]⟩ 512 (some 512) ∧
    ¬ (group_count 65536 128 ≤ 128) := by
  decide

/-- C8 (amended): on a 16-bit run with segment width `w >= 1`, the block-sum scan
is dispatched as a single group exactly in effective mode 1 (then with
`get_scanned_BS_2`, global size = local size = `group_count`), and there the
block count is within the segment width when `w >= 256`; indeed
`group_count <= w` holds exactly for `w >= 256`.  In the other segmented run
(effective mode 0) the serial `get_scanned_BS_1` is dispatched with no group
size. -/
theorem block_scan_fits_segment (requested : Int) (w : Nat) (hw : 1 ≤ w) :
    (mode_id requested 65536 w = 1 →
      kernel2_helper2_dispatch (mode_id requested 65536 w) 65536 w
        = Command.ndrange ⟨some KernelName.get_scanned_BS_2, [(0, Arg.buffer buffer_BS)]⟩
            (group_count 65536 w) (some (group_count 65536 w)) ∧
      (256 ≤ w → group_count 65536 w ≤ w)) ∧
    (group_count 65536 w ≤ w ↔ 256 ≤ w) ∧
    (mode_id requested 65536 w = 0 →
      kernel2_helper2_dispatch (mode_id requested 65536 w) 65536 w
        = Command.ndrange ⟨some KernelName.get_scanned_BS_1,
            [(1, Arg.buffer buffer_BS_scanned), (0, Arg.buffer buffer_BS)]⟩
            (group_count 65536 w) none) := by
  have hg : group_count 65536 w = 65536 / w := by simp [group_count]
  have hiff : group_count 65536 w ≤ w ↔ 256 ≤ w := by
    rw [hg]
    constructor
    · intro h
      by_contra hlt
      have h255 : w ≤ 255 := by omega
      have : w + 1 ≤ 65536 / w := by
        rw [Nat.le_div_iff_mul_le (by omega)]
        nlinarith
      omega
    · intro h
      apply Nat.div_le_of_le_mul
      nlinarith
  refine ⟨?_, hiff, ?_⟩
  · intro hm
    rw [hm]
    exact ⟨by simp [kernel2_helper2_dispatch, kernel2_helper2], hiff.mpr⟩
  · intro hm
    rw [hm]
    simp [kernel2_helper2_dispatch, kernel2_helper2]

/-- Witness for `block_scan_fits_segment`: requested mode 1, segment width 256. -/
theorem block_scan_fits_segment_witness :
    (1 : Nat) ≤ 256 ∧ mode_id 1 65536 256 = 1 ∧ group_count 65536 256 ≤ 256 :=
  ⟨by decide, by decide,
    ((block_scan_fits_segment 1 256 (by decide)).1 (by decide)).2 (by decide)⟩

/-- C9 (the code departs from the claim): with a segment width of 768 the
BlockSum and ScannedBlockSum arrays have `65536 / 768 = 85` entries, while the
within-segment scan and the merge are dispatched over 66048 work-items in groups
of 768, that is 86 segments. -/
theorem block_count_below_segment_count :
    group_count 65536 768 = 85 ∧
    kernel2_global_elements_16 65536 768 = 66048 ∧
    kernel2_global_elements_16 65536 768 / 768 = 86 ∧
    scan_dispatches 0 65536 768
      = [Command.ndrange (kernel2 0 65536 768) 66048 (some 768),
         Command.ndrange (kernel2_helper1 0 65536 768) 85 none,
         Command.ndrange (kernel2_helper2 0 65536) 85 none,
         Command.ndrange (kernel2_helper3 0 65536) 66048 (some 768)] := by
  decide

/-- The true part of C9: for a segment width between 1 and 65536 the number of
segments launched equals the block count exactly when the width divides 65536;
otherwise one more segment is launched than there are block sums. -/
theorem segment_count_eq_group_count_iff (w : Nat) (h1 : 1 ≤ w) (h2 : w ≤ 65536) :
    (kernel2_global_elements_16 65536 w / w = group_count 65536 w ↔ w ∣ 65536) ∧
    (¬ w ∣ 65536 → kernel2_global_elements_16 65536 w / w = group_count 65536 w + 1) := by
  have hg : group_count 65536 w = 65536 / w := by simp [group_count]
  have hdm := Nat.div_add_mod 65536 w
  have hml : 65536 % w < w := Nat.mod_lt _ (by omega)
  by_cases hd : 65536 % w = 0
  · have hdvd : w ∣ 65536 := Nat.dvd_of_mod_eq_zero hd
    have hk : kernel2_global_elements_16 65536 w = 65536 := by
      simp [kernel2_global_elements_16, pad_global_elements, hd]
    rw [hk, hg]
    exact ⟨⟨fun _ => hdvd, fun _ => rfl⟩, fun h => absurd hdvd h⟩
  · have hndvd : ¬ w ∣ 65536 := fun h => hd (Nat.mod_eq_zero_of_dvd h)
    have hk : kernel2_global_elements_16 65536 w = w * (65536 / w + 1) := by
      have hlt : 65536 + (w - 65536 % w) < SIZE_MOD := by unfold SIZE_MOD; omega
      simp only [kernel2_global_elements_16, pad_global_elements, ne_eq, hd,
        not_false_eq_true, if_true, Nat.mod_eq_of_lt hlt]
      rw [Nat.mul_add, Nat.mul_one]
      omega
    rw [hk, hg, Nat.mul_div_cancel_left _ (by omega : 0 < w)]
    exact ⟨⟨fun h => absurd h (by omega), fun h => absurd h hndvd⟩, fun _ => rfl⟩

/-- C10: for every element count `n` and segment width `w >= 1` with no `size_t`
overflow (`n + w <= 2^64`), the padded global size `g` is the least multiple of
`w` that is at least `n`: `w` divides `g`, `n <= g < n + w`, `g = n` when `w`
divides `n`, and every multiple of `w` that is at least `n` is at least `g`.
Both paddings of `main` are this function. -/
theorem padding_least_multiple (n w : Nat) (hw : 1 ≤ w) (hno : n + w ≤ SIZE_MOD) :
    w ∣ pad_global_elements n w ∧
    n ≤ pad_global_elements n w ∧
    pad_global_elements n w < n + w ∧
    (w ∣ n → pad_global_elements n w = n) ∧
    (∀ m, w ∣ m → n ≤ m → pad_global_elements n w ≤ m) ∧
    kernel1_global_elements_8 n = pad_global_elements n 256 ∧
    kernel2_global_elements_16 n w = pad_global_elements n w := by
  have hdm := Nat.div_add_mod n w
  have hml : n % w < w := Nat.mod_lt _ (by omega)
  by_cases hd : n % w = 0
  · have hg : pad_global_elements n w = n := by simp [pad_global_elements, hd]
    refine ⟨?_, ?_, ?_, fun _ => hg, ?_, rfl, rfl⟩
    · rw [hg]; exact Nat.dvd_of_mod_eq_zero hd
    · rw [hg]
    · rw [hg]; omega
    · intro m _ h; rw [hg]; exact h
  · have hlt : n + (w - n % w) < SIZE_MOD := by omega
    have hg : pad_global_elements n w = w * (n / w + 1) := by
      simp only [pad_global_elements, ne_eq, hd, not_false_eq_true, if_true,
        Nat.mod_eq_of_lt hlt]
      rw [Nat.mul_add, Nat.mul_one]
      omega
    have hg2 : pad_global_elements n w = n + (w - n % w) := by
      simp only [pad_global_elements, ne_eq, hd, not_false_eq_true, if_true,
        Nat.mod_eq_of_lt hlt]
    refine ⟨?_, by omega, by omega, ?_, ?_, rfl, rfl⟩
    · rw [hg]; exact Dvd.intro _ rfl
    · intro h; exact absurd (Nat.mod_eq_zero_of_dvd h) hd
    · rintro m ⟨c, rfl⟩ hnm
      rw [hg]
      apply Nat.mul_le_mul_left
      by_contra hc
      have hc2 : c ≤ n / w := by omega
      have : w * c ≤ w * (n / w) := Nat.mul_le_mul_left _ hc2
      omega

/-- Witness for `padding_least_multiple`: 1000 samples padded to groups of 256. -/
theorem padding_least_multiple_witness :
    (1 : Nat) ≤ 256 ∧ 1000 + 256 ≤ SIZE_MOD ∧ pad_global_elements 1000 256 < 1000 + 256 :=
  ⟨by decide, by decide, (padding_least_multiple 1000 256 (by decide) (by decide)).2.2.1⟩

/-! ## Stage order and zero-initialisation -/

/-- The bin count is 256 or 65536. -/
theorem bin_count_cases (img : CImg) : bin_count img = 256 ∨ bin_count img = 65536 := by
  unfold bin_count
  split_ifs
  · exact Or.inl rfl
  · exact Or.inr rfl

/-- For a work-group size of at least one, `main` reaches the end of its queue. -/
theorem main_queue_eq (img : CImg) (requested : Int) (w : Nat) (hw : 1 ≤ w) :
    main_queue img requested w
      = some (upload_commands img (mode_id requested (bin_count img) w) w
          ++ kernel_dispatches img (mode_id requested (bin_count img) w) w
          ++ readback_commands img (mode_id requested (bin_count img) w) w) := by
  have h : w ≠ 0 := by omega
  simp [main_queue, h]

/-- The commands before the first dispatch are the upload and the zero-fills. -/
theorem before_first_dispatch_eq (img : CImg) (m : Int) (w : Nat) :
    before_first_dispatch (upload_commands img m w ++ kernel_dispatches img m w
        ++ readback_commands img m w)
      = upload_commands img m w := by
  unfold before_first_dispatch upload_commands kernel_dispatches kernel1_dispatch
  split_ifs <;> simp [List.takeWhile, Command.is_dispatch]

/-- The kernels dispatched by `main`, in order. -/
theorem dispatched_kernels_eq (img : CImg) (m : Int) (w : Nat) :
    dispatched_kernels (upload_commands img m w ++ kernel_dispatches img m w
        ++ readback_commands img m w)
      = [kernel1 m (bin_count img) (input_image_elements img), kernel2 m (bin_count img) w]
        ++ (if (m = 0 ∨ m = 1) ∧ bin_count img = 65536 then
              [kernel2_helper1 m (bin_count img) w, kernel2_helper2 m (bin_count img),
               kernel2_helper3 m (bin_count img)]
            else [])
        ++ [kernel3 img, kernel4 (bin_count img)] := by
  unfold dispatched_kernels upload_commands kernel_dispatches readback_commands
    kernel1_dispatch scan_dispatches kernel2_helper2_dispatch
  split_ifs <;> simp_all


/-- The stages dispatched by `main`, in order. -/
theorem stage_sequence_eq (img : CImg) (m : Int) (w : Nat) :
    (dispatched_kernels (upload_commands img m w ++ kernel_dispatches img m w
        ++ readback_commands img m w)).map (fun k => k.name.map KernelName.stage)
      = [some Stage.histogram, some Stage.scan]
        ++ (if bin_count img = 65536 ∧ (m = 0 ∨ m = 1) then
              [some Stage.block_sums, some Stage.block_sum_scan, some Stage.merge]
            else [])
        ++ [some Stage.lookup_table, some Stage.remap] := by
  rw [dispatched_kernels_eq]
  rcases bin_count_cases img with hb | hb
  · by_cases hm : m = 0 ∨ m = 1
    · simp [hb, hm, kernel1, kernel2, kernel3, kernel4, KernelName.stage]
    · simp [hb, hm, kernel1, kernel2, kernel3, kernel4, KernelName.stage]
  · by_cases h0 : m = 0
    · simp [hb, h0, kernel1, kernel2, kernel3, kernel4, kernel2_helper1, kernel2_helper2,
        kernel2_helper3, KernelName.stage]
    · by_cases h1 : m = 1
      · simp [hb, h1, kernel1, kernel2, kernel3, kernel4, kernel2_helper1, kernel2_helper2,
          kernel2_helper3, KernelName.stage]
      · simp [hb, h0, h1, kernel1, kernel2, kernel3, kernel4, KernelName.stage]

/-- No later stage of the queue produces a buffer an earlier stage reads, and the
only later write to a buffer an earlier stage reads is the in-place merge. -/
theorem dispatch_order_pairwise (img : CImg) (m : Int) (w : Nat) :
    (dispatched_kernels (upload_commands img m w ++ kernel_dispatches img m w
        ++ readback_commands img m w)).Pairwise
      (fun early late => ∀ b ∈ early.reads, b ∉ late.produces) ∧
    (dispatched_kernels (upload_commands img m w ++ kernel_dispatches img m w
        ++ readback_commands img m w)).Pairwise
      (fun early late => ∀ b ∈ early.reads, b ∈ late.writes →
        early.name = some KernelName.get_B_S ∧ late.name = some KernelName.get_complete_chist
          ∧ b = buffer_CH) := by
  rw [dispatched_kernels_eq]
  rcases bin_count_cases img with hb | hb
  · by_cases hm : m = 0 ∨ m = 1
    · simp [hb, hm, kernel1, kernel2, kernel3, kernel4, Kernel.reads, Kernel.writes,
        Kernel.produces, Kernel.arg_buffer, read_args, written_args]
    · simp [hb, hm, kernel1, kernel2, kernel3, kernel4, Kernel.reads, Kernel.writes,
        Kernel.produces, Kernel.arg_buffer, read_args, written_args]
  · by_cases h0 : m = 0
    · simp [hb, h0, kernel1, kernel2, kernel3, kernel4, kernel2_helper1, kernel2_helper2,
        kernel2_helper3, Kernel.reads, Kernel.writes,
        Kernel.produces, Kernel.arg_buffer, read_args, written_args]
    · by_cases h1 : m = 1
      · simp [hb, h1, kernel1, kernel2, kernel3, kernel4, kernel2_helper1, kernel2_helper2,
          kernel2_helper3, Kernel.reads, Kernel.writes,
          Kernel.produces, Kernel.arg_buffer, read_args, written_args]
      · simp [hb, h0, h1, kernel1, kernel2, kernel3, kernel4, Kernel.reads, Kernel.writes,
          Kernel.produces, Kernel.arg_buffer, read_args, written_args]


/-- Every buffer a dispatched kernel reads is the uploaded image or is written by
an earlier dispatch. -/
theorem reads_are_ready (img : CImg) (m : Int) (w : Nat) (i : Nat) (k : Kernel)
    (hk : (dispatched_kernels (upload_commands img m w ++ kernel_dispatches img m w
        ++ readback_commands img m w))[i]? = some k) (b : Buffer) (hb : b ∈ k.reads) :
    (b = buffer_input_image ∧
      Command.write buffer_input_image (input_image_size img) ∈ upload_commands img m w) ∨
    ∃ p ∈ (dispatched_kernels (upload_commands img m w ++ kernel_dispatches img m w
        ++ readback_commands img m w)).take i, b ∈ p.writes := by
  have hup : Command.write buffer_input_image (input_image_size img)
      ∈ upload_commands img m w := by simp [upload_commands]
  rw [dispatched_kernels_eq] at hk ⊢
  rcases bin_count_cases img with hbin | hbin
  · by_cases hm : m = 0 ∨ m = 1
    · simp only [hbin, hm] at hk ⊢
      rcases i with _ | _ | _ | _ | i <;>
        simp [kernel1, kernel2, kernel3, kernel4, kernel2_helper1, kernel2_helper2,
          kernel2_helper3] at hk <;> (try subst hk) <;>
        simp_all [kernel1, kernel2, kernel3, kernel4, Kernel.reads, Kernel.writes,
          Kernel.arg_buffer, read_args, written_args]
      all_goals (rcases hb with rfl | rfl; all_goals simp_all)
    · simp only [hbin, hm] at hk ⊢
      rcases i with _ | _ | _ | _ | i <;>
        simp [kernel1, kernel2, kernel3, kernel4, kernel2_helper1, kernel2_helper2,
          kernel2_helper3] at hk <;> (try subst hk) <;>
        simp_all [kernel1, kernel2, kernel3, kernel4, Kernel.reads, Kernel.writes,
          Kernel.arg_buffer, read_args, written_args]
      all_goals (rcases hb with rfl | rfl; all_goals simp_all)
  · by_cases h0 : m = 0
    · subst h0
      simp only [hbin] at hk ⊢
      rcases i with _ | _ | _ | _ | _ | _ | _ | i <;>
        simp [kernel1, kernel2, kernel3, kernel4, kernel2_helper1, kernel2_helper2,
          kernel2_helper3] at hk <;> (try subst hk) <;>
        simp_all [kernel1, kernel2, kernel3, kernel4, kernel2_helper1, kernel2_helper2,
          kernel2_helper3, Kernel.reads, Kernel.writes,
          Kernel.arg_buffer, read_args, written_args]
      all_goals (rcases hb with rfl | rfl; all_goals simp_all)
    · by_cases h1 : m = 1
      · subst h1
        simp only [hbin] at hk ⊢
        rcases i with _ | _ | _ | _ | _ | _ | _ | i <;>
          simp [kernel1, kernel2, kernel3, kernel4, kernel2_helper1, kernel2_helper2,
            kernel2_helper3] at hk <;> (try subst hk) <;>
          simp_all [kernel1, kernel2, kernel3, kernel4, kernel2_helper1, kernel2_helper2,
            kernel2_helper3, Kernel.reads, Kernel.writes,
            Kernel.arg_buffer, read_args, written_args]
        all_goals (rcases hb with rfl | rfl; all_goals simp_all)
      · have hm : ¬ (m = 0 ∨ m = 1) := by simp [h0, h1]
        simp only [hbin, hm] at hk ⊢
        rcases i with _ | _ | _ | _ | i <;>
          simp [kernel1, kernel2, kernel3, kernel4, kernel2_helper1, kernel2_helper2,
            kernel2_helper3] at hk <;> (try subst hk) <;>
          simp_all [kernel1, kernel2, kernel3, kernel4, Kernel.reads, Kernel.writes,
            Kernel.arg_buffer, read_args, written_args]
        all_goals (rcases hb with rfl | rfl; all_goals simp_all)


/-- Outside the segmented path no block-sum helper kernel is dispatched. -/
theorem helpers_absent (img : CImg) (m : Int) (w : Nat)
    (hns : ¬ (bin_count img = 65536 ∧ (m = 0 ∨ m = 1))) (k : Kernel)
    (hk : k ∈ dispatched_kernels (upload_commands img m w ++ kernel_dispatches img m w
        ++ readback_commands img m w)) :
    k.name ≠ some KernelName.get_B_S ∧ k.name ≠ some KernelName.get_scanned_BS_1 ∧
    k.name ≠ some KernelName.get_scanned_BS_2 ∧
    k.name ≠ some KernelName.get_complete_chist := by
  rw [dispatched_kernels_eq] at hk
  have hif : ¬ ((m = 0 ∨ m = 1) ∧ bin_count img = 65536) := fun h => hns ⟨h.2, h.1⟩
  simp only [hif, if_false, List.append_nil, List.cons_append, List.nil_append,
    List.mem_cons, List.mem_singleton, List.not_mem_nil, or_false] at hk
  rcases hk with rfl | rfl | rfl | rfl
  · unfold kernel1; split_ifs <;> simp
  · unfold kernel2; split_ifs <;> simp
  · simp [kernel3]
  · unfold kernel4; split_ifs <;> simp

/-- Every counter buffer bound to a dispatched kernel is zero-filled by the upload
commands, and `buffer_BS_scanned` is bound only on a 16-bit run in mode 0. -/
theorem bound_buffers_filled (img : CImg) (m : Int) (w : Nat) (k : Kernel)
    (hk : k ∈ dispatched_kernels (upload_commands img m w ++ kernel_dispatches img m w
        ++ readback_commands img m w)) (b : Buffer) (hb : b ∈ k.bound_buffers) :
    (b ∈ [buffer_H, buffer_CH, buffer_LUT, buffer_BS, buffer_BS_scanned] →
      Command.fill b (buffer_bytes img w b) ∈ upload_commands img m w) ∧
    (b = buffer_BS_scanned → bin_count img = 65536 ∧ m = 0) := by
  rw [dispatched_kernels_eq] at hk
  rcases bin_count_cases img with hbin | hbin
  · by_cases h0 : m = 0
    · subst h0
      simp [hbin, kernel1, kernel2, kernel3, kernel4] at hk
      rcases hk with rfl | rfl | rfl | rfl <;>
        simp [Kernel.bound_buffers] at hb <;>
        rcases hb with rfl | rfl | rfl <;>
        simp [upload_commands, buffer_bytes, hbin]
    · by_cases h1 : m = 1
      · subst h1
        simp [hbin, kernel1, kernel2, kernel3, kernel4] at hk
        rcases hk with rfl | rfl | rfl | rfl <;>
          simp [Kernel.bound_buffers] at hb <;>
          rcases hb with rfl | rfl | rfl <;>
          simp [upload_commands, buffer_bytes, hbin]
      · simp [hbin, h0, h1, kernel1, kernel2, kernel3, kernel4] at hk
        rcases hk with rfl | rfl | rfl | rfl <;>
          simp [Kernel.bound_buffers] at hb <;>
          rcases hb with rfl | rfl | rfl <;>
          simp [upload_commands, buffer_bytes, hbin]
  · by_cases h0 : m = 0
    · subst h0
      simp [hbin, kernel1, kernel2, kernel3, kernel4, kernel2_helper1, kernel2_helper2,
        kernel2_helper3] at hk
      rcases hk with rfl | rfl | rfl | rfl | rfl | rfl | rfl <;>
        simp [Kernel.bound_buffers] at hb <;>
        rcases hb with rfl | rfl | rfl <;>
        simp [upload_commands, buffer_bytes, hbin]
    · by_cases h1 : m = 1
      · subst h1
        simp [hbin, kernel1, kernel2, kernel3, kernel4, kernel2_helper1, kernel2_helper2,
          kernel2_helper3] at hk
        rcases hk with rfl | rfl | rfl | rfl | rfl | rfl | rfl <;>
          simp [Kernel.bound_buffers] at hb <;>
          rcases hb with rfl | rfl | rfl <;>
          simp [upload_commands, buffer_bytes, hbin]
      · simp [hbin, h0, h1, kernel1, kernel2, kernel3, kernel4] at hk
        rcases hk with rfl | rfl | rfl | rfl <;>
          simp [Kernel.bound_buffers] at hb <;>
          rcases hb with rfl | rfl | rfl <;>
          simp [upload_commands, buffer_bytes, hbin]


/-- C11: for every image, requested mode id and segment width `w >= 1`, the
stages `main` dispatches are histogram, scan, then exactly when the bin count is
65536 and the mode id in effect is 0 or 1 block-sum extraction, block-sum scan
and merge, then lookup table and remap, in this order.  No stage is enqueued
before a stage that produces a buffer it reads; every buffer a stage reads is the
uploaded image or was written by an earlier stage; the only write to a buffer
after a stage has read it is the in-place merge of `get_complete_chist` into
`buffer_CH`, which `get_B_S` has read; and no block-sum helper kernel is
dispatched for an 8-bit image or on the basic path. -/
theorem stage_ordering (img : CImg) (requested : Int) (w : Nat) (hw : 1 ≤ w) :
    ∃ q, main_queue img requested w = some q ∧
      (dispatched_kernels q).map (fun k => k.name.map KernelName.stage)
        = [some Stage.histogram, some Stage.scan]
          ++ (if bin_count img = 65536 ∧
                (mode_id requested (bin_count img) w = 0
                  ∨ mode_id requested (bin_count img) w = 1) then
                [some Stage.block_sums, some Stage.block_sum_scan, some Stage.merge]
              else [])
          ++ [some Stage.lookup_table, some Stage.remap] ∧
      (dispatched_kernels q).Pairwise
        (fun early late => ∀ b ∈ early.reads, b ∉ late.produces) ∧
      (∀ i k, (dispatched_kernels q)[i]? = some k → ∀ b ∈ k.reads,
        (b = buffer_input_image ∧
          Command.write buffer_input_image (input_image_size img)
            ∈ before_first_dispatch q) ∨
        ∃ p ∈ (dispatched_kernels q).take i, b ∈ p.writes) ∧
      (dispatched_kernels q).Pairwise
        (fun early late => ∀ b ∈ early.reads, b ∈ late.writes →
          early.name = some KernelName.get_B_S ∧
          late.name = some KernelName.get_complete_chist ∧ b = buffer_CH) ∧
      (¬ (bin_count img = 65536 ∧
            (mode_id requested (bin_count img) w = 0
              ∨ mode_id requested (bin_count img) w = 1)) →
        ∀ k ∈ dispatched_kernels q,
          k.name ≠ some KernelName.get_B_S ∧ k.name ≠ some KernelName.get_scanned_BS_1 ∧
          k.name ≠ some KernelName.get_scanned_BS_2 ∧
          k.name ≠ some KernelName.get_complete_chist) := by
  refine ⟨_, main_queue_eq img requested w hw, stage_sequence_eq img _ w,
    (dispatch_order_pairwise img _ w).1, ?_, (dispatch_order_pairwise img _ w).2,
    fun hns k hk => helpers_absent img _ w hns k hk⟩
  intro i k hk b hb
  rw [before_first_dispatch_eq]
  exact reads_are_ready img _ w i k hk b hb

/-- Witness for `stage_ordering`: automatic mode on a 16-bit image with segment
width 256 dispatches all seven stages. -/
theorem stage_ordering_witness :
    (1 : Nat) ≤ 256 ∧
    ∃ q, main_queue ⟨1, 1, 1, 1, [256]⟩ 0 256 = some q ∧
      (dispatched_kernels q).map (fun k => k.name.map KernelName.stage)
        = [some Stage.histogram, some Stage.scan, some Stage.block_sums,
           some Stage.block_sum_scan, some Stage.merge, some Stage.lookup_table,
           some Stage.remap] := by
  obtain ⟨q, hq, hseq, -⟩ := stage_ordering ⟨1, 1, 1, 1, [256]⟩ 0 256 (by decide)
  refine ⟨by decide, q, hq, ?_⟩
  rw [hseq]
  decide

/-- C12: for every image, requested mode id and segment width `w >= 1`, every
Histogram, CumulativeHistogram, LookupTable, BlockSum or ScannedBlockSum buffer
bound as an argument of a dispatched kernel has a zero-fill over the byte size it
was created with among the commands enqueued before the first kernel dispatch;
and `buffer_BS_scanned` is bound to a dispatched kernel only on a 16-bit run with
mode id 0 in effect, where it is zero-filled. -/
theorem zero_fill_before_use (img : CImg) (requested : Int) (w : Nat) (hw : 1 ≤ w) :
    ∃ q, main_queue img requested w = some q ∧
      (∀ k ∈ dispatched_kernels q, ∀ b ∈ k.bound_buffers,
        b ∈ [buffer_H, buffer_CH, buffer_LUT, buffer_BS, buffer_BS_scanned] →
        Command.fill b (buffer_bytes img w b) ∈ before_first_dispatch q) ∧
      (∀ k ∈ dispatched_kernels q, buffer_BS_scanned ∈ k.bound_buffers →
        bin_count img = 65536 ∧ mode_id requested (bin_count img) w = 0 ∧
        Command.fill buffer_BS_scanned (buffer_bytes img w buffer_BS_scanned)
          ∈ before_first_dispatch q) := by
  refine ⟨_, main_queue_eq img requested w hw, ?_, ?_⟩
  · intro k hk b hb hmem
    rw [before_first_dispatch_eq]
    exact (bound_buffers_filled img _ w k hk b hb).1 hmem
  · intro k hk hb
    rw [before_first_dispatch_eq]
    have h := bound_buffers_filled img _ w k hk buffer_BS_scanned hb
    exact ⟨(h.2 rfl).1, (h.2 rfl).2, h.1 (by simp)⟩

/-- Witness for `zero_fill_before_use`: automatic mode on a 16-bit image with
segment width 256. -/
theorem zero_fill_before_use_witness :
    (1 : Nat) ≤ 256 ∧
    ∃ q, main_queue ⟨1, 1, 1, 1, [256]⟩ 0 256 = some q ∧
      ∀ k ∈ dispatched_kernels q, ∀ b ∈ k.bound_buffers,
        b ∈ [buffer_H, buffer_CH, buffer_LUT, buffer_BS, buffer_BS_scanned] →
        Command.fill b (buffer_bytes ⟨1, 1, 1, 1, [256]⟩ 256 b) ∈ before_first_dispatch q := by
  obtain ⟨q, hq, hfill, -⟩ := zero_fill_before_use ⟨1, 1, 1, 1, [256]⟩ 0 256 (by decide)
  exact ⟨by decide, q, hq, hfill⟩

/-! ## Runs with buffer creation: fallback and downgrade; the uncovered segment -/

/-- A completed run pushed the queue of `main_queue` and created no empty buffer. -/
theorem main_run_completed (img : CImg) (requested : Int) (w : Nat) (q : List Command)
    (h : main_run img requested w = RunOutcome.completed q) :
    main_queue img requested w = some q ∧
    ∀ b ∈ created_buffers, buffer_bytes img w b ≠ 0 := by
  unfold main_run at h
  cases hq : main_queue img requested w with
  | none => rw [hq] at h; simp at h
  | some q' =>
    rw [hq] at h
    cases hf : created_buffers.find? (fun b => buffer_bytes img w b = 0) with
    | some b => rw [hf] at h; simp at h
    | none =>
      rw [hf] at h
      simp only [RunOutcome.completed.injEq] at h
      refine ⟨by rw [h], ?_⟩
      intro b hb
      have := List.find?_eq_none.mp hf b hb
      simpa using this

/-- A run with a work-group size of at least one and no empty buffer completes. -/
theorem main_run_of_sizes (img : CImg) (requested : Int) (w : Nat) (hw : 1 ≤ w)
    (hs : ∀ b ∈ created_buffers, buffer_bytes img w b ≠ 0) :
    main_run img requested w
      = RunOutcome.completed (upload_commands img (mode_id requested (bin_count img) w) w
          ++ kernel_dispatches img (mode_id requested (bin_count img) w) w
          ++ readback_commands img (mode_id requested (bin_count img) w) w) := by
  unfold main_run
  rw [main_queue_eq img requested w hw]
  have hf : created_buffers.find? (fun b => buffer_bytes img w b = 0) = none := by
    rw [List.find?_eq_none]
    intro b hb
    simpa using hs b hb
  simp only [hf]

/-- On a 16-bit image a segment width above 65536 leaves the block-sum buffer
empty. -/
theorem buffer_BS_empty (img : CImg) (w : Nat) (h16 : bin_count img = 65536)
    (hw : 65536 < w) : buffer_bytes img w buffer_BS = 0 := by
  simp [buffer_bytes, h16, group_count, Nat.div_eq_of_lt hw, vec_size]

/-- On a 16-bit image with samples to upload and a segment width between 1 and
65536 no buffer is empty. -/
theorem buffers_not_empty (img : CImg) (w : Nat) (h16 : bin_count img = 65536)
    (h1 : 1 ≤ w) (h2 : w ≤ 65536) (hin : input_image_size img ≠ 0) :
    ∀ b ∈ created_buffers, buffer_bytes img w b ≠ 0 := by
  obtain ⟨hb1, hb2⟩ := group_count_16_bounds w h1 h2
  have hv : vec_size (group_count 65536 w) ≠ 0 := by
    unfold vec_size sizeof_standard SIZE_MOD
    omega
  intro b hb
  simp only [created_buffers, List.mem_cons, List.mem_singleton, List.not_mem_nil,
    or_false] at hb
  rcases hb with rfl | rfl | rfl | rfl | rfl | rfl | rfl <;>
    simp [buffer_bytes, h16, hin, hv] <;> decide

/-- A dispatched kernel named `get_scanned_BS_2` is the helper `kernel2_helper2`. -/
theorem blelloch_dispatched_is_helper2 (img : CImg) (m : Int) (w : Nat) (k : Kernel)
    (hk : k ∈ dispatched_kernels (upload_commands img m w ++ kernel_dispatches img m w
        ++ readback_commands img m w))
    (hn : k.name = some KernelName.get_scanned_BS_2) :
    (kernel2_helper2 m (bin_count img)).name = some KernelName.get_scanned_BS_2 := by
  rw [dispatched_kernels_eq] at hk
  simp only [List.mem_append, List.mem_cons, List.mem_singleton, List.not_mem_nil,
    or_false] at hk
  rcases hk with ((rfl | rfl) | hk) | (rfl | rfl)
  · unfold kernel1 at hn; split_ifs at hn <;> simp at hn
  · unfold kernel2 at hn; split_ifs at hn <;> simp at hn
  · split_ifs at hk with hc
    · simp only [List.mem_cons, List.mem_singleton, List.not_mem_nil, or_false] at hk
      rcases hk with rfl | rfl | rfl
      · unfold kernel2_helper1 at hn; split_ifs at hn; all_goals simp at hn
      · exact hn
      · unfold kernel2_helper3 at hn; split_ifs at hn <;> simp at hn
    · simp at hk
  · simp [kernel3] at hn
  · unfold kernel4 at hn; split_ifs at hn <;> simp at hn


/-- C1: on a 16-bit image, for every requested mode id and every segment width
`w >= 1`, a run of `main` that gets as far as creating and dispatching kernels
uses the Blelloch block-sum kernel `get_scanned_BS_2` only when the block count
`65536 / w` is a power of two, and never when it is not.  A width above 65536
(block count 0) ends the run at the creation of the empty block-sum buffer,
before any kernel is selected; for a width up to 65536 and an image with samples
the run completes. -/
theorem fallback_selection (img : CImg) (requested : Int) (w : Nat)
    (h16 : bin_count img = 65536) (hw : 1 ≤ w) :
    (∀ q, main_run img requested w = RunOutcome.completed q →
      ((∃ k ∈ dispatched_kernels q, k.name = some KernelName.get_scanned_BS_2) →
        ∃ n, group_count 65536 w = 2 ^ n) ∧
      ((¬ ∃ n, group_count 65536 w = 2 ^ n) →
        ∀ k ∈ dispatched_kernels q, k.name ≠ some KernelName.get_scanned_BS_2)) ∧
    (65536 < w → ∀ q, main_run img requested w ≠ RunOutcome.completed q) ∧
    (w ≤ 65536 → input_image_size img ≠ 0 →
      ∃ q, main_run img requested w = RunOutcome.completed q) := by
  have hstop : 65536 < w → ∀ q, main_run img requested w ≠ RunOutcome.completed q := by
    intro hbig q hq
    exact (main_run_completed img requested w q hq).2 buffer_BS (by simp [created_buffers])
      (buffer_BS_empty img w h16 hbig)
  have hsel : ∀ q, main_run img requested w = RunOutcome.completed q →
      (∃ k ∈ dispatched_kernels q, k.name = some KernelName.get_scanned_BS_2) →
      ∃ n, group_count 65536 w = 2 ^ n := by
    rintro q hq ⟨k, hk, hn⟩
    have h2 : w ≤ 65536 := by
      by_contra hbig
      exact hstop (by omega) q hq
    have hmq := (main_run_completed img requested w q hq).1
    rw [main_queue_eq img requested w hw] at hmq
    simp only [Option.some.injEq] at hmq
    rw [← hmq] at hk
    have h := blelloch_dispatched_is_helper2 img _ w k hk hn
    rw [h16] at h
    exact blelloch_only_for_pow2_blocks requested w hw h2 h
  refine ⟨fun q hq => ⟨hsel q hq, ?_⟩, hstop, ?_⟩
  · intro hnp k hk hn
    exact hnp (hsel q hq ⟨k, hk, hn⟩)
  · intro h2 hin
    exact ⟨_, main_run_of_sizes img requested w hw (buffers_not_empty img w h16 hw h2 hin)⟩

/-- Witness for `fallback_selection`: requested mode 1 on a 16-bit image with
segment width 768 (85 blocks, not a power of two) completes and dispatches no
`get_scanned_BS_2`. -/
theorem fallback_selection_witness :
    bin_count ⟨1, 1, 1, 1, [256]⟩ = 65536 ∧ (1 : Nat) ≤ 768 ∧
    ∃ q, main_run ⟨1, 1, 1, 1, [256]⟩ 1 768 = RunOutcome.completed q ∧
      ∀ k ∈ dispatched_kernels q, k.name ≠ some KernelName.get_scanned_BS_2 := by
  have hnp : ¬ ∃ n, group_count 65536 768 = 2 ^ n := by
    have hb : 1 ≤ group_count 65536 768 ∧ group_count 65536 768 < SIZE_MOD := by decide
    intro h
    have h0 := (not_pow2_test_eq_zero_iff _ hb.1 hb.2).mpr h
    revert h0
    decide
  obtain ⟨hsel, -, hcomp⟩ :=
    fallback_selection ⟨1, 1, 1, 1, [256]⟩ 1 768 (by decide) (by decide)
  obtain ⟨q, hq⟩ := hcomp (by decide) (by decide)
  exact ⟨by decide, by decide, q, hq, (hsel q hq).2 hnp⟩

/-- C2: on a 16-bit image, for every segment width `w >= 1` whose block count is
not a power of two, a run requested with mode 1 ends exactly as a run requested
with mode 0.  When the run completes, its queue is the queue of mode 0: the
kernels are `get_hist_16`, `get_chist_HS`, `get_B_S`, `get_scanned_BS_1`,
`get_complete_chist`, `get_LUT` and `get_Output16`, the merge takes its offsets
from `buffer_BS_scanned`, and `buffer_BS_scanned` is zero-filled and read back.
For a width up to 65536 and an image with samples the run completes. -/
theorem silent_downgrade (img : CImg) (w : Nat) (h16 : bin_count img = 65536)
    (hw : 1 ≤ w) (hnp : ¬ ∃ n, group_count 65536 w = 2 ^ n) :
    main_run img 1 w = main_run img 0 w ∧
    (∀ q, main_run img 1 w = RunOutcome.completed q →
      main_queue img 0 w = some q ∧
      (dispatched_kernels q).map Kernel.name
        = [some KernelName.get_hist_16, some KernelName.get_chist_HS,
           some KernelName.get_B_S, some KernelName.get_scanned_BS_1,
           some KernelName.get_complete_chist, some KernelName.get_LUT,
           some KernelName.get_Output16] ∧
      (∃ k ∈ dispatched_kernels q, k.name = some KernelName.get_complete_chist ∧
        k.arg_buffer 0 = some buffer_BS_scanned) ∧
      Command.fill buffer_BS_scanned (buffer_bytes img w buffer_BS_scanned) ∈ q ∧
      Command.read buffer_BS_scanned (buffer_bytes img w buffer_BS_scanned) ∈ q) ∧
    (w ≤ 65536 → input_image_size img ≠ 0 →
      ∃ q, main_run img 1 w = RunOutcome.completed q) := by
  have heq : main_run img 1 w = main_run img 0 w := by
    by_cases h2 : w ≤ 65536
    · unfold main_run
      rw [(downgrade_same_queue img w h16 hw h2 hnp).1]
    · have hz : buffer_bytes img w buffer_BS = 0 := buffer_BS_empty img w h16 (by omega)
      unfold main_run
      rw [main_queue_eq img 1 w hw, main_queue_eq img 0 w hw]
      cases hf : created_buffers.find? (fun b => buffer_bytes img w b = 0) with
      | some b => rfl
      | none =>
        have := List.find?_eq_none.mp hf buffer_BS (by simp [created_buffers])
        simp [hz] at this
  refine ⟨heq, ?_, ?_⟩
  · intro q hq
    rw [heq] at hq
    have hmq := (main_run_completed img 0 w q hq).1
    refine ⟨hmq, ?_⟩
    rw [main_queue_eq img 0 w hw] at hmq
    simp only [Option.some.injEq] at hmq
    have hm0 : mode_id 0 (bin_count img) w = 0 := by simp [mode_id]
    rw [hm0] at hmq
    subst hmq
    rw [dispatched_kernels_eq]
    refine ⟨?_, ⟨kernel2_helper3 0 (bin_count img), ?_, ?_, ?_⟩, ?_, ?_⟩
    · simp [h16, kernel1, kernel2, kernel2_helper1, kernel2_helper2, kernel2_helper3,
        kernel3, kernel4]
    · simp [h16]
    · simp [h16, kernel2_helper3]
    · simp [h16, kernel2_helper3, Kernel.arg_buffer]
    · simp [upload_commands, buffer_bytes, h16]
    · simp [readback_commands, buffer_bytes, h16]
  · intro h2 hin
    exact ⟨_, main_run_of_sizes img 1 w hw (buffers_not_empty img w h16 hw h2 hin)⟩

/-- Witness for `silent_downgrade`: segment width 768 (85 blocks) on a 16-bit
image. -/
theorem silent_downgrade_witness :
    bin_count ⟨1, 1, 1, 1, [256]⟩ = 65536 ∧ (1 : Nat) ≤ 768 ∧
    (¬ ∃ n, group_count 65536 768 = 2 ^ n) ∧
    main_run ⟨1, 1, 1, 1, [256]⟩ 1 768 = main_run ⟨1, 1, 1, 1, [256]⟩ 0 768 := by
  have hnp : ¬ ∃ n, group_count 65536 768 = 2 ^ n := by
    have hb : 1 ≤ group_count 65536 768 ∧ group_count 65536 768 < SIZE_MOD := by decide
    intro h
    have h0 := (not_pow2_test_eq_zero_iff _ hb.1 hb.2).mpr h
    revert h0
    decide
  exact ⟨by decide, by decide, hnp,
    (silent_downgrade ⟨1, 1, 1, 1, [256]⟩ 768 (by decide) (by decide) hnp).1⟩


/-- In a segment beyond the block count the mode-0 chain leaves the segment-local
sums: no block offset exists for it. -/
theorem chist_mode0_uncovered (H : List Nat) (w groups : Nat) (hw : 0 < w) (i : Nat)
    (hi : i < H.length) (hg : groups ≤ i / w) :
    (chist_mode0 w groups H).getD i 0 + (H.take (i / w * w)).sum = (H.take (i + 1)).sum := by
  have hlen : (get_chist_HS w H).length = H.length := hs_rounds_length w _ H
  have hS : (get_scanned_BS_1 (get_B_S w groups (get_chist_HS w H))).length = groups := by
    rw [get_scanned_BS_1, exclusive_from_eq]
    simp [get_B_S]
  have hz : (get_scanned_BS_1 (get_B_S w groups (get_chist_HS w H))).getD (i / w) 0 = 0 :=
    List.getD_eq_default _ _ (by rw [hS]; exact hg)
  rw [chist_mode0, get_complete_chist, getD_map_range, hlen, if_pos hi, hz, Nat.add_zero]
  exact get_chist_HS_local H w hw i hi

/-- The sum of the first `n` bins of a histogram with one sample per bin. -/
theorem sum_take_replicate_one (n m : Nat) :
    ((List.replicate m 1).take n).sum = min n m := by
  simp [List.take_replicate]

/-- C5 (the code departs from the claim): for a 16-bit histogram with one sample
in each of the 65536 bins and a segment width of 768, the host runs the
segmented scan over `65536 / 768 = 85` blocks (also for requested mode 1, which
falls back to mode 0); the last entry of the result is 256, the sum of the 86th
segment alone, while the serial scan `get_chist` ends with 65536. -/
theorem scan_chain_misses_last_segment :
    group_count 65536 768 = 85 ∧
    mode_id 1 65536 768 = 0 ∧
    (chist_mode0 768 (group_count 65536 768) (List.replicate 65536 1)).getD 65535 0 = 256 ∧
    (get_chist (List.replicate 65536 1)).getD 65535 0 = 65536 ∧
    chist_mode0 768 (group_count 65536 768) (List.replicate 65536 1)
      ≠ get_chist (List.replicate 65536 1) := by
  have hg : group_count 65536 768 = 85 := by decide
  have h1 : (chist_mode0 768 (group_count 65536 768) (List.replicate 65536 1)).getD 65535 0
      = 256 := by
    have h := chist_mode0_uncovered (List.replicate 65536 1) 768 (group_count 65536 768)
      (by decide) 65535 (by rw [List.length_replicate]; decide) (by rw [hg])
    rw [sum_take_replicate_one, sum_take_replicate_one] at h
    have e1 : min (65535 / 768 * 768) 65536 = 65280 := by decide
    have e2 : min (65535 + 1) 65536 = 65536 := by decide
    rw [e1, e2] at h
    omega
  have h2 : (get_chist (List.replicate 65536 1)).getD 65535 0 = 65536 := by
    rw [get_chist_eq, inclusive_sums, getD_map_range, List.length_replicate,
      if_pos (by decide), sum_take_replicate_one]
    decide
  refine ⟨hg, by decide, h1, h2, ?_⟩
  intro h
  rw [h, h2] at h1
  omega

end Tutorial2
